import Mathlib

/-!
Verification of the storefront assistant core against its specification.

The JavaScript/TypeScript sources are shallowly embedded as Lean functions
over `List Char` / `String`:
* JS strings become `String` (or `List Char` where scanning is involved);
  only ASCII-relevant behaviour of `toLowerCase`/`trim` is modelled.
* Regex `test`/`match` calls are embedded as executable scanners or as a
  small backtracking matcher (`Rx`); all the classifier's patterns carry
  the `i` flag, which is modelled by matching the lowercased text against
  lowercased literals.
* JS numbers used for confidences are modelled as `ℚ`; all scores are `Nat`.
* Fallible code (`throw`) becomes `Except`; module-global state (the loaded
  knowledge base) becomes an explicit parameter.
-/

/-- ASCII whitespace, the fragment of JS `\s` relevant here. -/
def isSpaceB (c : Char) : Bool :=
  c == ' ' || c == '\t' || c == '\n' || c == '\r' || c == Char.ofNat 11 || c == Char.ofNat 12

/-- ASCII letter (JS `[A-Za-z]`). -/
def isLetterB (c : Char) : Bool :=
  ('A' ≤ c && c ≤ 'Z') || ('a' ≤ c && c ≤ 'z')

/-- ASCII digit (JS `[0-9]`). -/
def isDigitB (c : Char) : Bool :=
  '0' ≤ c && c ≤ '9'

/-- ASCII alphanumeric (JS `[A-Za-z0-9]`). -/
def isAlnumB (c : Char) : Bool :=
  isLetterB c || isDigitB c

/-- JS word character `\w` = `[A-Za-z0-9_]`. -/
def isWordB (c : Char) : Bool :=
  isAlnumB c || c == '_'

/-- JS character class `[\w.]`. -/
def isWordDotB (c : Char) : Bool :=
  isWordB c || c == '.'

/-- JS character class `[A-Za-z0-9.]`. -/
def isAlnumDotB (c : Char) : Bool :=
  isAlnumB c || c == '.'

/-- The ASCII apostrophe, kept out of string literals on purpose. -/
def apoC : Char := Char.ofNat 39

/-- One-character apostrophe string. -/
def apS : String := String.mk [apoC]

/-- ASCII model of JS `String.prototype.toLowerCase`. -/
def toLowerL (l : List Char) : List Char :=
  l.map Char.toLower

/-- ASCII model of JS `String.prototype.toLowerCase` on `String`. -/
def toLowerS (s : String) : String :=
  String.mk (toLowerL s.data)

/-- ASCII model of JS `String.prototype.trim`. -/
def trimL (l : List Char) : List Char :=
  ((l.dropWhile isSpaceB).reverse.dropWhile isSpaceB).reverse

/-- `isPrefB n h` = `h` starts with `n`. -/
def isPrefB : List Char → List Char → Bool
  | [], _ => true
  | _ :: _, [] => false
  | a :: as, b :: bs => a == b && isPrefB as bs

/-- JS `hay.includes(needle)` (substring containment). -/
def containsL : List Char → List Char → Bool
  | [], n => isPrefB n []
  | h :: hs, n => isPrefB n (h :: hs) || containsL hs n

/-- JS `hay.includes(needle)` on `String`. -/
def containsS (hay needle : String) : Bool :=
  containsL hay.data needle.data

/-- JS `String.prototype.slice(0, n)` on `String`. -/
def takeS (n : Nat) (s : String) : String :=
  String.mk (s.data.take n)

mutual

/-- Helper of `splitWs`: accumulating the current (reversed) word. -/
def splitWsGo : List Char → List Char → List (List Char)
  | cur, [] => [cur.reverse]
  | cur, c :: t => if isSpaceB c then cur.reverse :: splitWsSkip t else splitWsGo (c :: cur) t

/-- Helper of `splitWs`: inside a whitespace run. -/
def splitWsSkip : List Char → List (List Char)
  | [] => [[]]
  | c :: t => if isSpaceB c then splitWsSkip t else splitWsGo [c] t

end

/-- JS `text.split(/\s+/)`: split on maximal whitespace runs, keeping the
empty pieces JS produces at a whitespace-adjacent start/end of the string. -/
def splitWs (l : List Char) : List (List Char) :=
  splitWsGo [] l

example : splitWs " a  bc ".data = [[], ['a'], ['b', 'c'], []] := by decide

example : splitWs "".data = [[]] := by decide

/-- KnowledgeEntry from the spec's data model (`ground-truth.json` entries):
id, category, question, answer, optional lastUpdated. -/
structure KnowledgeEntry where
  id : String
  category : String
  question : String
  answer : String
  lastUpdated : Option String := none
deriving DecidableEq, Repr

/-- Does the list start with an ASCII letter?  (Encodes the `[A-Za-z]+`
start-of-token requirement: the token run is nonempty with letter head.) -/
def startsLetterB : List Char → Bool
  | [] => false
  | c :: _ => isLetterB c

namespace CitationValidator

/-- Scanner for the citation-validator regex `/\[([A-Za-z]+[\w.]*)\]/g`
(`extractCitations` in the citation-validator module): a match is `[`,
a maximal nonempty `[\w.]`-run starting with a letter, then `]`.
Failed positions resume scanning one character later, exactly as the JS
regex engine does; after a successful match the JS engine resumes after the
closing `]`, which finds the same matches as resuming one character after
the `[` because a token body never contains `[` or `]`. -/
def extractTokens : List Char → List (List Char)
  | [] => []
  | c :: rest =>
    if c = '[' then
      if (rest.dropWhile isWordDotB).head? = some ']' then
        if startsLetterB (rest.takeWhile isWordDotB) then
          rest.takeWhile isWordDotB :: extractTokens rest
        else extractTokens rest
      else extractTokens rest
    else extractTokens rest

/-- `extractCitations(responseText)` of the citation-validator module:
all bracketed tokens, without de-duplication
(`matches.map(m => m.slice(1, -1))`). -/
def extractCitations (responseText : String) : List (List Char) :=
  extractTokens responseText.data

example : extractCitations "a [P1.2] b [Z] [9x] [A] [A]" =
    ["P1.2".data, "Z".data, "A".data, "A".data] := by decide

/-- Result shape of the citation-validator's `validateCitations`. -/
structure ValidationResult where
  isValid : Bool
  validCitations : List (List Char × KnowledgeEntry)
  invalidCitations : List (List Char)
  validCount : Nat
  invalidCount : Nat
deriving Repr

/-- `validateCitations(citations)` of the citation-validator module,
with the module-global `knowledgeBase` made an explicit parameter:
partition the citations by exact id lookup; `isValid` iff no invalid one. -/
def validateCitations (kb : List KnowledgeEntry) (citations : List (List Char)) :
    ValidationResult :=
  let valid := citations.filterMap
    (fun c => (kb.find? (fun p => p.id.data == c)).map (fun found => (c, found)))
  let invalid := citations.filter (fun c => (kb.find? (fun p => p.id.data == c)).isNone)
  ⟨invalid.length == 0, valid, invalid, valid.length, invalid.length⟩

/-- The citation-validator's category keyword table. -/
def cvCategoryKeywords : List (String × List String) :=
  [("returns", ["return", "refund", "exchange", "money back", "send back"]),
   ("shipping", ["ship", "delivery", "deliver", "arrival", "transit", "carrier", "track"]),
   ("warranty", ["warranty", "guarantee", "defect", "broken", "repair", "replace"]),
   ("privacy", ["privacy", "data", "personal information", "secure", "confidential"]),
   ("security", ["security", "hack", "password", "protection", "payment", "safe"]),
   ("payment", ["payment", "pay", "credit card", "billing", "charge"])]

/-- `findRelevantPolicies(userQuery)` of the citation-validator module:
category-keyword matching, falling back to direct question/answer matching,
then `slice(0, 3)`. -/
def findRelevantPolicies (kb : List KnowledgeEntry) (userQuery : String) :
    List KnowledgeEntry :=
  if kb.isEmpty then []
  else
    let query := toLowerS userQuery
    let matchedCategories :=
      (cvCategoryKeywords.filter (fun ck => ck.2.any (fun kw => containsS query kw))).map
        (fun ck => ck.1)
    let relevant :=
      if matchedCategories.length > 0 then
        kb.filter (fun p => matchedCategories.contains p.category)
      else []
    let relevant2 :=
      if relevant.length = 0 then
        kb.filter (fun p =>
          let pQuestion := toLowerS p.question
          let pAnswer := toLowerS p.answer
          containsS query (takeS 20 pQuestion) || containsS pQuestion (takeS 20 query) ||
            containsS pAnswer query)
      else relevant
    relevant2.take 3

/-- The citation-validator module's state is just the loaded knowledge base;
`findRelevantPolicies` reads it and writes nothing, modelled by explicit
state passing. -/
def findRelevantPoliciesS (st : List KnowledgeEntry) (q : String) :
    List KnowledgeEntry × List KnowledgeEntry :=
  (findRelevantPolicies st q, st)

end CitationValidator

namespace LLMIntegration

/-- Scanner for the LLM-integration regex `/\[([A-Za-z0-9.]+)\]/g`
(`extractCitations` in `LLMIntegration`): a match is `[`, a maximal
nonempty `[A-Za-z0-9.]`-run, then `]`.  As in
`CitationValidator.extractTokens`, resuming one character after a matched
`[` is equivalent to the JS engine resuming after the `]`. -/
def extractAll : List Char → List (List Char)
  | [] => []
  | c :: rest =>
    if c = '[' then
      match rest.takeWhile isAlnumDotB, rest.dropWhile isAlnumDotB with
      | [], _ => extractAll rest
      | run, ']' :: _ => run :: extractAll rest
      | _, _ => extractAll rest
    else extractAll rest

/-- Insert-if-absent at the back: the effect of adding to a JS `Set`
iterated in insertion order. -/
def addUniqueL (acc : List (List Char)) (x : List Char) : List (List Char) :=
  if acc.contains x then acc else acc ++ [x]

/-- `[...new Set(citations)]`: de-duplicate preserving first-seen order. -/
def dedupFirst (l : List (List Char)) : List (List Char) :=
  l.foldl addUniqueL []

/-- `LLMIntegration.extractCitations(text)`: one regex pass collecting the
bracketed tokens, then de-duplication via a `Set`. -/
def extractCitations (text : String) : List (List Char) :=
  dedupFirst (extractAll text.data)

example : extractCitations "a [P1.2] b [Z] [9x] [A] [A]" =
    ["P1.2".data, "Z".data, "9x".data, "A".data] := by decide

/-- The LLM-integration `findRelevantPolicies` category keyword table. -/
def llmCategoryKeywords : List (String × List String) :=
  [("returns", ["return", "refund", "exchange"]),
   ("shipping", ["ship", "delivery", "carrier"]),
   ("payment", ["pay", "card", "checkout"]),
   ("account", ["register", "login", "password"])]

/-- The per-entry score of `LLMIntegration.findRelevantPolicies`:
+10 for the whole query as a substring of the entry's combined
question+answer text, +1 per query keyword of length > 3 found in it,
+2 per category keyword contained in the query when the entry's category
matches that table row. -/
def scoreEntry (queryLower : List Char) (keywords : List (List Char))
    (p : KnowledgeEntry) : Nat :=
  let content := toLowerL (p.question ++ " " ++ p.answer).data
  (if containsL content queryLower then 10 else 0)
    + (keywords.filter (fun k => k.length > 3 && containsL content k)).length
    + llmCategoryKeywords.foldl
        (fun acc ck =>
          if p.category = ck.1 then
            acc + 2 * (ck.2.filter (fun kw => containsL queryLower kw.data)).length
          else acc) 0

/-- The score of an entry for a query, with the preprocessing
(`query.toLowerCase()`, `split(/\s+/)`) applied. -/
def scoreOf (query : String) (p : KnowledgeEntry) : Nat :=
  scoreEntry (toLowerL query.data) (splitWs (toLowerL query.data)) p

/-- Insertion into a descending-by-score list, after all entries of
greater-or-equal score. -/
def insertDesc (x : KnowledgeEntry × Nat) :
    List (KnowledgeEntry × Nat) → List (KnowledgeEntry × Nat)
  | [] => [x]
  | y :: ys => if x.2 > y.2 then x :: y :: ys else y :: insertDesc x ys

/-- Stable sort by descending score: the effect of the JS (stable)
`Array.prototype.sort((a, b) => b.score - a.score)`. -/
def sortByScoreDesc (l : List (KnowledgeEntry × Nat)) :
    List (KnowledgeEntry × Nat) :=
  l.foldl (fun acc x => insertDesc x acc) []

/-- `LLMIntegration.findRelevantPolicies(query)` with the module's
`groundTruth` made an explicit parameter: score every entry, keep the
positively scored ones, sort by descending score (stable), take 3.
The JS spread `{...policy, score}` is modelled as the pair
(entry, score). -/
def findRelevantPolicies (kb : List KnowledgeEntry) (query : String) :
    List (KnowledgeEntry × Nat) :=
  let queryLower := toLowerL query.data
  let keywords := splitWs queryLower
  let scored := kb.map (fun p => (p, scoreEntry queryLower keywords p))
  ((scored.filter (fun ps => ps.2 > 0)) |> sortByScoreDesc).take 3

/-- State-passing form of `LLMIntegration.findRelevantPolicies` (the module
state it reads is the loaded ground-truth collection). -/
def findRelevantPoliciesS (st : List KnowledgeEntry) (q : String) :
    List (KnowledgeEntry × Nat) × List KnowledgeEntry :=
  (findRelevantPolicies st q, st)

end LLMIntegration

namespace IntentClassifier

/-- Regex fragment language covering exactly the constructs used by the
classifier's pattern tables: literals, alternation, `.*`, `\s*`, `#?`-style
options, `\d+`, the anchors `^`/`$` (no `m` flag) and `\b`. -/
inductive Rx where
  | eps : Rx
  | lit : List Char → Rx
  | anyStar : Rx
  | wsStar : Rx
  | digitPlus : Rx
  | opt : Rx → Rx
  | alt : Rx → Rx → Rx
  | seq : Rx → Rx → Rx
  | bos : Rx
  | eos : Rx
  | wb : Rx

/-- Match a literal, threading the previous character (for `\b`). -/
def litM : List Char → Option Char → List Char → (Option Char → List Char → Bool) → Bool
  | [], p, l, k => k p l
  | _ :: _, _, [], _ => false
  | c :: cs, _, x :: xs, k => c == x && litM cs (some x) xs k

/-- Match zero or more characters satisfying `ok` (all split points are
tried, which decides the same `test` results as the greedy JS engine). -/
def starM (ok : Char → Bool) : Option Char → List Char → (Option Char → List Char → Bool) → Bool
  | p, [], k => k p []
  | p, c :: t, k => k p (c :: t) || (ok c && starM ok (some c) t k)

/-- Is the character under the option a word character (`none` = text edge)? -/
def wordOpt : Option Char → Bool
  | none => false
  | some c => isWordB c

/-- Is the head of the remaining text a word character? -/
def wordHead : List Char → Bool
  | [] => false
  | c :: _ => isWordB c

/-- CPS matcher: `mrec r prev l k` holds iff some prefix of `l` matches `r`
(with `prev` the character just before `l`, for `^` and `\b`) and `k`
accepts the rest. -/
def mrec : Rx → Option Char → List Char → (Option Char → List Char → Bool) → Bool
  | .eps, p, l, k => k p l
  | .lit cs, p, l, k => litM cs p l k
  | .anyStar, p, l, k => starM (fun c => !(c == '\n' || c == '\r')) p l k
  | .wsStar, p, l, k => starM isSpaceB p l k
  | .digitPlus, _, l, k =>
    match l with
    | [] => false
    | c :: t => isDigitB c && starM isDigitB (some c) t k
  | .opt r, p, l, k => mrec r p l k || k p l
  | .alt r s, p, l, k => mrec r p l k || mrec s p l k
  | .seq r s, p, l, k => mrec r p l (fun p2 l2 => mrec s p2 l2 k)
  | .bos, p, l, k => p.isNone && k p l
  | .eos, p, l, k => l.isEmpty && k p l
  | .wb, p, l, k => (wordOpt p != wordHead l) && k p l

/-- Try to match starting at every position, as `RegExp.prototype.test`. -/
def testFrom (r : Rx) : Option Char → List Char → Bool
  | p, [] => mrec r p [] (fun _ _ => true)
  | p, c :: t => mrec r p (c :: t) (fun _ _ => true) || testFrom r (some c) t

/-- `pattern.test(text)` for an `i`-flagged pattern: the pattern tables
below store lowercased literals, and the text is lowercased here. -/
def rtest (r : Rx) (text : List Char) : Bool :=
  testFrom r none (toLowerL text)

/-- Literal regex atom. -/
def rstr (s : String) : Rx :=
  .lit s.data

/-- Alternation of literal alternatives given as char lists. -/
def raltL : List (List Char) → Rx
  | [] => .lit []
  | [x] => .lit x
  | x :: xs => .alt (.lit x) (raltL xs)

/-- Alternation of literal alternatives. -/
def ralt (l : List String) : Rx :=
  raltL (l.map String.data)

/-- Sequence of regex fragments. -/
def rseq (l : List Rx) : Rx :=
  l.foldr .seq .eps

/-- `a` ++ apostrophe ++ `b` as a char list (for literals like the
contraction spellings in the pattern tables). -/
def aps (a b : String) : List Char :=
  a.data ++ apoC :: b.data

/-- `product` / `products` (the regex `products?`). -/
def rproducts : Rx :=
  rseq [rstr "product", .opt (rstr "s")]

example : rtest (rseq [rstr "what ", ralt ["is", "are"], rstr " ", ralt ["your", "the"],
    rstr " ", .anyStar, ralt ["policy", "policies"]])
    "What is your RETURN policy".data = true := by decide

example : rtest (rseq [.bos, ralt ["hi", "hello", "hey"], .eos]) "hi".data = true := by decide

example : rtest (rseq [.bos, ralt ["hi", "hello", "hey"], .eos]) "hi there".data = false := by
  decide

example : rtest (rseq [.wb, ralt ["ass"], .wb]) "class act".data = false := by decide

example : rtest (rseq [.wb, ralt ["ass"], .wb]) "an ass act".data = true := by decide

example : rtest (rseq [rstr "order", .wsStar, .opt (rstr "#"), .digitPlus])
    "my order  #123".data = true := by decide

/-- The seven intent names, as in the `INTENTS` constant. -/
def POLICY_QUESTION : String := "policy_question"

/-- Intent name constant. -/
def ORDER_STATUS : String := "order_status"

/-- Intent name constant. -/
def PRODUCT_SEARCH : String := "product_search"

/-- Intent name constant. -/
def COMPLAINT : String := "complaint"

/-- Intent name constant. -/
def CHITCHAT : String := "chitchat"

/-- Intent name constant. -/
def OFF_TOPIC : String := "off_topic"

/-- Intent name constant. -/
def VIOLATION : String := "violation"

/-- `Object.values(INTENTS)` in declaration order — the order the
classifier's score loops iterate in. -/
def intentsInOrder : List String :=
  [POLICY_QUESTION, ORDER_STATUS, PRODUCT_SEARCH, COMPLAINT, CHITCHAT, OFF_TOPIC, VIOLATION]

/-- `INTENT_PATTERNS[intent].keywords` (all lowercase, as in the source). -/
def keywordsOf (intent : String) : List String :=
  if intent = POLICY_QUESTION then
    ["policy", "return", "refund", "exchange", "warranty",
     "shipping", "delivery", "privacy", "terms", "conditions",
     "guarantee", "cancel", "how long", "how much cost",
     "international", "payment methods", "security"]
  else if intent = ORDER_STATUS then
    ["order", "track", "tracking", "status", "where",
     "delivered", "shipment", "package", "arrival", "shipped",
     "order number", "order id", "my purchase"]
  else if intent = PRODUCT_SEARCH then
    ["product", "item", "looking for", "search", "find",
     "show", "available", "stock", "price", "cost",
     "category", "products", "shop", "browse", "recommend"]
  else if intent = COMPLAINT then
    ["problem", "issue", "broken", "damaged", "wrong",
     "complaint", "unhappy", "disappointed", "terrible",
     "worst", "awful", "horrible", "bad", "unacceptable",
     "frustrated", "angry", "upset"]
  else if intent = CHITCHAT then
    ["hello", "hi", "hey", "thanks", "thank you", "bye",
     "goodbye", "how are you", "good morning", "good evening",
     "what" ++ apS ++ "s up", "name", "who are you", "help"]
  else if intent = VIOLATION then
    ["stupid", "idiot", "hate", "suck", "damn",
     "hell", "racist", "sexist", "discriminate"]
  else if intent = OFF_TOPIC then
    ["weather", "sports", "politics", "recipe", "movie",
     "music", "game", "homework", "math", "science",
     "history", "geography", "bitcoin", "crypto", "stocks"]
  else []

/-- `INTENT_PATTERNS[intent].patterns`, transcribed pattern by pattern
(literals lowercased to model the `i` flag; see `rtest`). -/
def patternsOf (intent : String) : List Rx :=
  if intent = POLICY_QUESTION then
    [rseq [rstr "what ", ralt ["is", "are"], rstr " ", ralt ["your", "the"], rstr " ",
       .anyStar, ralt ["policy", "policies"]],
     rseq [rstr "how ", ralt ["do", "does", "can", "to"], rstr " ", .anyStar,
       ralt ["return", "refund", "exchange"]],
     rseq [rstr "how long ", .anyStar, ralt ["shipping", "delivery", "return"]],
     rseq [rstr "can i ", ralt ["return", "exchange", "cancel"]],
     rseq [rstr "do you ", ralt ["ship", "deliver"]],
     rstr "what happens if"]
  else if intent = ORDER_STATUS then
    [rseq [rstr "where", .anyStar, rstr "my", .anyStar, ralt ["order", "package", "shipment"]],
     rseq [rstr "track", .anyStar, rstr "order"],
     rseq [rstr "order", .anyStar, rstr "status"],
     rseq [rstr "when", .anyStar, rstr "arrive"],
     rseq [rstr "has", .anyStar, rstr "shipped"],
     rseq [ralt ["check", "see", "view"], .anyStar, rstr "order"],
     rseq [rstr "order", .wsStar, .opt (rstr "#"), .digitPlus],
     rseq [rstr "my recent ", ralt ["order", "purchase"]]]
  else if intent = PRODUCT_SEARCH then
    [rseq [rstr "show", .anyStar, rproducts],
     rseq [ralt ["looking", "search"], rstr " for"],
     rseq [rstr "do you ", ralt ["have", "sell"]],
     rseq [rstr "what", .anyStar, .alt rproducts (rseq [rstr "item", .opt (rstr "s")]),
       .anyStar, ralt ["available", "have", "sell"]],
     rseq [rstr "recommend", .anyStar, rstr "for"],
     rseq [rproducts, .anyStar, ralt ["under", "less than", "cheaper"]],
     rseq [rstr "best", .anyStar, rstr "for"],
     rseq [ralt ["browse", "shop", "see"], .anyStar, .alt (rstr "category") rproducts]]
  else if intent = COMPLAINT then
    [rseq [raltL ["not".data, aps "isn" "t", aps "wasn" "t", aps "won" "t", aps "didn" "t"],
       rstr " work"],
     rseq [rstr "this is ", ralt ["terrible", "awful", "horrible", "unacceptable"]],
     rseq [rstr "i", raltL [apoC :: "m".data, " am".data], rstr " ",
       ralt ["upset", "angry", "frustrated", "disappointed"]],
     rseq [ralt ["broken", "damaged", "wrong"], rstr " ", ralt ["product", "item", "order"]],
     rseq [rstr "want to ", ralt ["complain", "file a complaint"]],
     rseq [rstr "speak to ", ralt ["manager", "supervisor"]],
     rstr "this is ridiculous"]
  else if intent = CHITCHAT then
    [rseq [.bos, ralt ["hi", "hello", "hey"], .eos],
     rseq [.bos, ralt ["thanks", "thank you", "thx"], .eos],
     rseq [.bos, ralt ["bye", "goodbye", "see you"], .eos],
     rstr "how are you",
     rseq [rstr "what", raltL [apoC :: "s".data, " is".data], rstr " your name"],
     rstr "who are you",
     rseq [rstr "good ", ralt ["morning", "afternoon", "evening"]],
     rseq [.bos, rstr "help", .eos],
     rstr "nice to meet",
     rseq [rstr "are you ", ralt ["human", "robot", "ai", "bot"]]]
  else if intent = VIOLATION then
    [rseq [.wb, ralt ["fuck", "shit", "bitch", "ass"], .wb],
     rseq [rstr "you", raltL [apoC :: "re".data, " are".data], rstr " ",
       ralt ["stupid", "dumb", "idiot"]],
     rseq [rstr "hate ", ralt ["you", "this"]],
     rstr "kill yourself",
     rstr "go to hell",
     ralt ["racist", "sexist", "nazi"]]
  else if intent = OFF_TOPIC then
    [rseq [rstr "what", raltL [apoC :: "s".data, " is".data], rstr " the weather"],
     rseq [rstr "who won the ", ralt ["game", "match"]],
     rseq [rstr "tell me a ", ralt ["joke", "story"]],
     rseq [rstr "how to ", ralt ["cook", "make", "prepare"]],
     rseq [rstr "solve", .anyStar, rstr "equation"],
     rseq [rstr "write", .anyStar, rstr "essay"],
     rstr "capital of",
     rseq [rstr "when was", .anyStar, rstr "born"],
     rstr "bitcoin price"]
  else []

/-- `calculateIntentScore(text, intent)`: +2 per keyword found in the
lowercased text, +3 per pattern that tests true on the text. -/
def calculateIntentScore (text : List Char) (intent : String) : Nat :=
  let lowerText := toLowerL text
  2 * ((keywordsOf intent).filter (fun kw => containsL lowerText kw.data)).length
    + 3 * ((patternsOf intent).filter (fun p => rtest p text)).length

/-- `IntentResult`: intent, confidence, rationale. -/
structure IntentResult where
  intent : String
  confidence : ℚ
  reason : String
deriving DecidableEq, Repr

/-- `classifyIntent(userInput)`.  The `!userInput || typeof !== 'string'`
guard reduces, for string inputs, to the empty-string test.  The best-score
loop iterates `Object.entries(scores)` in `intentsInOrder` order, keeping
the first strictly greater score. -/
def classifyIntent (userInput : String) : IntentResult :=
  if userInput = "" then
    ⟨OFF_TOPIC, 0, "Invalid input"⟩
  else
    let text := trimL userInput.data
    let score := fun i => calculateIntentScore text i
    let best := intentsInOrder.foldl
      (fun bm i => if score i > bm.2 then (i, score i) else bm) (OFF_TOPIC, 0)
    if score VIOLATION > 0 then
      ⟨VIOLATION, min ((score VIOLATION : ℚ) / 5) 1, "Inappropriate language detected"⟩
    else if best.2 = 0 then
      if text.length < 20 then
        ⟨CHITCHAT, 1/2, "Short message, assuming chitchat"⟩
      else
        ⟨OFF_TOPIC, 3/10, "No clear intent detected"⟩
    else
      ⟨best.1, min ((best.2 : ℚ) / 10) 1,
        "Matched based on keywords and patterns (score: " ++ toString best.2 ++ ")"⟩

example : (classifyIntent "What is your return policy?").intent = POLICY_QUESTION := by decide

example : (classifyIntent "").intent = OFF_TOPIC := by decide

example : (classifyIntent "you are stupid, track my order now").intent = VIOLATION := by
  decide

example : (classifyIntent "zzz").intent = CHITCHAT := by decide

example : classifyIntent "asdkj qwoeiu zzzz qqqq" =
    ⟨OFF_TOPIC, 3/10, "No clear intent detected"⟩ := rfl

end IntentClassifier

namespace Synonyms

/-- The English synonym dictionary (`synonyms.en`). -/
def synonymsEn : List (String × List String) :=
  [("return_policy", ["return", "refund", "exchange", "money back", "send back", "give back"]),
   ("shipping", ["shipping", "delivery", "ship", "deliver", "send", "transport"]),
   ("order_status", ["order status", "track order", "where is my order", "order tracking"]),
   ("warranty", ["warranty", "guarantee", "protection plan", "coverage"]),
   ("product", ["product", "item", "goods", "merchandise"]),
   ("price", ["price", "cost", "how much", "pricing"]),
   ("payment", ["payment", "pay", "checkout", "billing"]),
   ("cancel", ["cancel", "stop", "void", "revoke"])]

/-- The Arabic synonym dictionary (`synonyms.ar`). -/
def synonymsAr : List (String × List String) :=
  [("return_policy", ["إرجاع", "استرداد", "استبدال", "استرجاع"]),
   ("shipping", ["شحن", "توصيل", "تسليم", "إرسال"]),
   ("order_status", ["حالة الطلب", "تتبع الطلب", "أين طلبي"]),
   ("warranty", ["ضمان", "كفالة"]),
   ("product", ["منتج", "سلعة", "بضاعة"]),
   ("price", ["سعر", "ثمن", "تكلفة"]),
   ("payment", ["دفع", "الدفع", "السداد"]),
   ("cancel", ["إلغاء", "إلغى", "توقف"])]

/-- `isArabic(text)`: the regex `/[؀-ۿ]/.test(text)`. -/
def isArabic (text : String) : Bool :=
  text.data.any (fun c => 0x600 ≤ c.toNat && c.toNat ≤ 0x6FF)

/-- `detectLanguage(text)`. -/
def detectLanguage (text : String) : String :=
  if isArabic text then "ar" else "en"

/-- Adding a string to a JS `Set` kept in insertion order. -/
def addUniqueS (acc : List String) (v : String) : List String :=
  if acc.contains v then acc else acc ++ [v]

/-- The cross-lingual hint phrases added for the other language. -/
def crossHints (lang : String) : List String :=
  if lang = "ar" then ["return policy", "shipping options", "order status"]
  else ["سياسة الإرجاع", "خيارات الشحن", "حالة الطلب"]

/-- `synonyms[lang]` for the language detected on a text. -/
def dictFor (text : String) : List (String × List String) :=
  if detectLanguage text = "ar" then synonymsAr else synonymsEn

/-- `expandQuery(userInput)`: detect the language, add every synonym of
each concept whose synonym list has a match in the lowercased input, always
add the three cross-lingual hints, return `[text, ...additions]` capped at
12.  (`String(userInput || '')` is the identity on strings here.) -/
def expandQuery (userInput : String) : List String :=
  let text := userInput
  let lang := detectLanguage text
  let dict := dictFor text
  let additions := dict.foldl
    (fun acc kv =>
      if kv.2.any (fun w => containsL (toLowerL text.data) (toLowerL w.data)) then
        kv.2.foldl addUniqueS acc
      else acc) []
  let additions2 := (crossHints lang).foldl addUniqueS additions
  (text :: additions2).take 12

example : expandQuery "can I refund this?" =
    ["can I refund this?", "return", "refund", "exchange", "money back", "send back",
     "give back", "سياسة الإرجاع", "خيارات الشحن", "حالة الطلب"] := by decide

example : (expandQuery "").length = 4 := by decide

end Synonyms

namespace FunctionRegistry

/-- A registered function: the `schema.required` list (the only schema
field `execute` consults) and the handler; handler failure (a JS `throw`
or rejected promise) is an `Except.error`. -/
structure FunctionDef where
  required : List String
  handler : List (String × String) → Except String String

/-- The registry's name-keyed map, as an association list. -/
def Registry := List (String × FunctionDef)

/-- `FunctionExecutionResult` (`function` records the executed name). -/
structure FunctionExecutionResult where
  success : Bool
  result : Option String := none
  error : Option String := none
  function : String
deriving DecidableEq, Repr

/-- The JS message Function 'name' not found. -/
def notFoundMsg (name : String) : String :=
  "Function " ++ apS ++ name ++ apS ++ " not found"

/-- JS `param in parameters`. -/
def hasParam (params : List (String × String)) (p : String) : Bool :=
  params.any (fun kv => kv.1 == p)

/-- `FunctionRegistry.execute(name, parameters)`.  An unregistered name
throws *outside* the try/catch, so it surfaces as `Except.error`
(a rejected promise for the caller); everything inside the try/catch —
the first missing required parameter, or a handler failure — is caught
and converted to a returned `{success: false, error}`. -/
def execute (reg : Registry) (name : String) (params : List (String × String)) :
    Except String FunctionExecutionResult :=
  match reg.find? (fun kv => kv.1 == name) with
  | none => .error (notFoundMsg name)
  | some nf =>
    match nf.2.required.find? (fun p => !hasParam params p) with
    | some p => .ok ⟨false, none, some ("Missing required parameter: " ++ p), name⟩
    | none =>
      match nf.2.handler params with
      | .error m => .ok ⟨false, none, some m, name⟩
      | .ok v => .ok ⟨true, some v, none, name⟩

end FunctionRegistry

namespace Engine

/-- The order-status record the storefront `getOrderStatus` resolves with;
`eta` is kept as the raw field, rendered for display by an abstract
`renderDate` (modelling `new Date(eta).toLocaleDateString()`). -/
structure OrderStatusInfo where
  status : String
  carrier : Option String := none
  eta : Option String := none

/-- A `ground-truth.json` item of the storefront assistant. -/
structure GroundTruthItem where
  qid : String
  question : String
  answer : String

/-- The result shape of `answerQuestion`. -/
structure AssistantAnswer where
  answer : Option String := none
  qid : Option String := none
  refused : Bool
deriving DecidableEq, Repr

/-- `tokenize(text)`: lowercase, replace `[^a-z0-9\s]` by spaces, split on
whitespace, drop empty tokens. -/
def tokenize (text : String) : List (List Char) :=
  let cleaned := (toLowerL text.data).map
    (fun c => if (('a' ≤ c && c ≤ 'z') || ('0' ≤ c && c ≤ '9') || isSpaceB c) then c else ' ')
  (splitWs cleaned).filter (fun w => !w.isEmpty)

/-- The first match of `/([A-Z0-9]{10,})/i`: the leftmost maximal
alphanumeric run of length at least 10 (scanning resumes one character
later on failure, which skips any shorter run exactly as the JS engine
does). -/
def findOrderId : List Char → Option (List Char)
  | [] => none
  | c :: rest =>
    let run := (c :: rest).takeWhile isAlnumB
    if 10 ≤ run.length then some run else findOrderId rest

/-- The masked order id: `'*'.repeat(orderId.length - 4) + orderId.slice(-4)`. -/
def maskId (orderId : List Char) : String :=
  String.mk (List.replicate (orderId.length - 4) '*') ++
    String.mk (orderId.drop (orderId.length - 4))

/-- The order-status answer sentence built by `answerQuestion`. -/
def renderAnswer (renderDate : String → String) (orderId : List Char)
    (status : OrderStatusInfo) : String :=
  "Order " ++ maskId orderId ++ " status: " ++ status.status ++ "." ++
    (match status.carrier with
     | some c => " Carrier: " ++ c ++ "."
     | none => "") ++
    (match status.eta with
     | some e => " ETA: " ++ renderDate e ++ "."
     | none => "")

/-- `answerQuestion(question)` with its external collaborators explicit:
`lookup` is the storefront `getOrderStatus` (a network call), `renderDate`
the locale date rendering, `gt` the imported ground-truth list. -/
def answerQuestion (lookup : String → Option OrderStatusInfo)
    (renderDate : String → String) (gt : List GroundTruthItem)
    (question : String) : AssistantAnswer :=
  let q := trimL question.data
  if q.isEmpty then ⟨none, none, true⟩
  else
    match findOrderId q with
    | some orderId =>
      match lookup (String.mk orderId) with
      | none => ⟨none, none, true⟩
      | some status => ⟨some (renderAnswer renderDate orderId status), none, false⟩
    | none =>
      let questionTokens := tokenize (String.mk q)
      let best := gt.foldl
        (fun bm item =>
          let itemTokens := tokenize item.question
          let overlap := (itemTokens.filter (fun tok => questionTokens.contains tok)).length
          let score : ℚ := if itemTokens.length > 0 then (overlap : ℚ) / itemTokens.length else 0
          match bm with
          | none => some (item.qid, score, item.answer)
          | some b => if score > b.2.1 then some (item.qid, score, item.answer) else some b)
        none
      match best with
      | none => ⟨none, none, true⟩
      | some b =>
        if b.2.1 < 1/4 then ⟨none, none, true⟩
        else ⟨some (b.2.2 ++ " [" ++ b.1 ++ "]"), some b.1, false⟩

example :
    answerQuestion (fun _ => some ⟨"SHIPPED", none, none⟩) id [] "where is ORDER12345678 ?" =
      ⟨some "Order *********5678 status: SHIPPED.", none, false⟩ := rfl

example :
    answerQuestion (fun _ => none) id [] "where is ORDER12345678 ?" =
      ⟨none, none, true⟩ := rfl

end Engine


section Claims

open IntentClassifier Synonyms Engine

/-- Generic fold step that never changes the accumulator. -/
theorem foldl_congr_id {α β : Type} (step : β → α → β) (l : List α)
    (acc : β) (h : ∀ x ∈ l, step acc x = acc) : l.foldl step acc = acc := by
  induction l with
  | nil => rfl
  | cons a t ih =>
    rw [List.foldl_cons, h a (List.mem_cons_self a t)]
    exact ih (fun x hx => h x (List.mem_cons_of_mem a hx))

/-- C3 counterexample input: the empty registry. -/
def emptyReg : FunctionRegistry.Registry := []

/-- C3 witness registry entry: one registered function with one required
parameter whose handler always fails. -/
def sampleFn : String × FunctionRegistry.FunctionDef :=
  ("getOrderStatus", ⟨["orderId"], fun _ => Except.error "Order not found"⟩)

/-- C3 witness registry. -/
def sampleReg : FunctionRegistry.Registry := [sampleFn]

/-- C3 (counterexample): executing an unregistered name does *not* return a
`FunctionExecutionResult` — the `not found` throw sits outside the
try/catch, so it propagates to the caller (a rejected promise), refuting
the claim that `execute` never raises. -/
theorem execute_unregistered_raises :
    FunctionRegistry.execute emptyReg "nope" [] =
      Except.error (FunctionRegistry.notFoundMsg "nope") := rfl

/-- C3 (amended): for every *registered* name, `execute` never raises:
a missing required parameter and a failing handler are both converted to a
returned `{success: false, error: message}`. -/
theorem execute_registered_never_raises (reg : FunctionRegistry.Registry)
    (name : String) (params : List (String × String))
    (nf : String × FunctionRegistry.FunctionDef)
    (hreg : reg.find? (fun kv => kv.1 == name) = some nf) :
    (∃ r, FunctionRegistry.execute reg name params = Except.ok r) ∧
    (∀ p, nf.2.required.find? (fun q => !FunctionRegistry.hasParam params q) = some p →
      FunctionRegistry.execute reg name params =
        Except.ok ⟨false, none, some ("Missing required parameter: " ++ p), name⟩) ∧
    (∀ msg, nf.2.handler params = Except.error msg →
      (∀ p ∈ nf.2.required, FunctionRegistry.hasParam params p = true) →
      FunctionRegistry.execute reg name params =
        Except.ok ⟨false, none, some msg, name⟩) := by
  refine ⟨?_, ?_, ?_⟩
  · simp only [FunctionRegistry.execute, hreg]
    cases hfind : nf.2.required.find? (fun p => !FunctionRegistry.hasParam params p) with
    | some p => exact ⟨_, rfl⟩
    | none =>
      cases hh : nf.2.handler params with
      | error m => exact ⟨_, rfl⟩
      | ok v => exact ⟨_, rfl⟩
  · intro p hp
    simp only [FunctionRegistry.execute, hreg, hp]
  · intro msg hmsg hall
    have hnone : nf.2.required.find? (fun q => !FunctionRegistry.hasParam params q) = none := by
      rw [List.find?_eq_none]
      intro q hq
      simp [hall q hq]
    simp only [FunctionRegistry.execute, hreg, hnone, hmsg]

/-- C3 (witness): on the sample registry, a call without the required
parameter returns a failure result instead of raising. -/
theorem execute_registered_never_raises_witness :
    FunctionRegistry.execute sampleReg "getOrderStatus" [] =
      Except.ok ⟨false, none, some "Missing required parameter: orderId", "getOrderStatus"⟩ :=
  (execute_registered_never_raises sampleReg "getOrderStatus" [] sampleFn rfl).2.1
    "orderId" rfl

/-- C9: grounding is deterministic and stateless: running
`findRelevantPolicies` (both the citation-validator and the
LLM-integration version) twice against an unchanged knowledge store yields
identical ordered results, and the store itself is unchanged by a call. -/
theorem findRelevantPolicies_idempotent (kb : List KnowledgeEntry) (q : String) :
    (CitationValidator.findRelevantPoliciesS kb q).1 =
        (CitationValidator.findRelevantPoliciesS
          (CitationValidator.findRelevantPoliciesS kb q).2 q).1 ∧
      (CitationValidator.findRelevantPoliciesS kb q).2 = kb ∧
      (LLMIntegration.findRelevantPoliciesS kb q).1 =
        (LLMIntegration.findRelevantPoliciesS
          (LLMIntegration.findRelevantPoliciesS kb q).2 q).1 ∧
      (LLMIntegration.findRelevantPoliciesS kb q).2 = kb :=
  ⟨rfl, rfl, rfl, rfl⟩

/-- C7 (counterexample): `expandQuery("")` is not the single-element list
containing the empty string — the three cross-lingual hint phrases are
always appended. -/
theorem expandQuery_empty_not_singleton : expandQuery "" ≠ [""] := by decide

/-- C7 (amended): on the empty string, and on any input without a synonym
match, `expandQuery` returns the original text followed by exactly the
three cross-lingual hint phrases for the other language (and, being a
total function, it never raises). -/
theorem expandQuery_no_match (s : String)
    (h : ∀ kv ∈ dictFor s, ∀ w ∈ kv.2,
      containsL (toLowerL s.data) (toLowerL w.data) = false) :
    expandQuery s = s :: crossHints (detectLanguage s) := by
  simp only [expandQuery]
  rw [foldl_congr_id _ (dictFor s) [] ?step]
  case step =>
    intro kv hkv
    have hany : kv.2.any (fun w => containsL (toLowerL s.data) (toLowerL w.data)) = false := by
      rw [List.any_eq_false]
      intro w hw
      simp [h kv hkv w hw]
    simp [hany]
  unfold detectLanguage
  by_cases hi : isArabic s
  · rw [if_pos hi]; rfl
  · rw [if_neg hi]; rfl

/-- C7 (witness): the empty string has no synonym match, so the result is
the empty string plus the three Arabic hints. -/
theorem expandQuery_no_match_witness :
    expandQuery "" = ["", "سياسة الإرجاع", "خيارات الشحن", "حالة الطلب"] := by
  rw [expandQuery_no_match "" (by decide)]; rfl

/-- The tie-break order declared by the spec (violation listed before
off_topic, unlike the code's iteration order). -/
def claimOrder : List String :=
  [POLICY_QUESTION, ORDER_STATUS, PRODUCT_SEARCH, COMPLAINT, CHITCHAT, VIOLATION, OFF_TOPIC]

/-- C2: whenever any violation keyword or pattern matches (violation score
positive on the trimmed input), `classifyIntent` returns `violation`,
whatever the other intents score. -/
theorem classifyIntent_violation_override (s : String)
    (h : 0 < calculateIntentScore (trimL s.data) VIOLATION) :
    (classifyIntent s).intent = VIOLATION := by
  by_cases he : s = ""
  · exfalso
    have hz : calculateIntentScore (trimL "".data) VIOLATION = 0 := by decide
    rw [he, hz] at h
    exact Nat.lt_irrefl 0 h
  · simp only [classifyIntent, if_neg he, gt_iff_lt, if_pos h]

/-- C2 (witness): a concrete abusive input is classified as violation. -/
theorem classifyIntent_violation_override_witness :
    (classifyIntent "you are stupid").intent = VIOLATION :=
  classifyIntent_violation_override "you are stupid" (by decide)

/-- C6 (counterexample): the empty string is shorter than 20 characters
and scores 0 for every intent, yet `classifyIntent` returns off_topic with
confidence 0 (reason Invalid input) — not chitchat with 0.5. -/
theorem classifyIntent_empty_not_chitchat :
    ("".length < 20 ∧ ∀ i ∈ intentsInOrder, calculateIntentScore (trimL "".data) i = 0) ∧
      (classifyIntent "").intent = OFF_TOPIC ∧ (classifyIntent "").confidence = 0 ∧
      (classifyIntent "").intent ≠ CHITCHAT :=
  ⟨⟨by decide, by decide⟩, rfl, rfl, by decide⟩

/-- C6 (amended): for every *nonempty* string whose trimmed form is
shorter than 20 characters and scores 0 for every intent, the result is
chitchat with confidence exactly 1/2; the empty string instead takes the
invalid-input early return (off_topic, confidence 0). -/
theorem classifyIntent_short_zero_chitchat (s : String) (hne : s ≠ "")
    (hz : ∀ i ∈ intentsInOrder, calculateIntentScore (trimL s.data) i = 0)
    (hlen : (trimL s.data).length < 20) :
    classifyIntent s = ⟨CHITCHAT, 1/2, "Short message, assuming chitchat"⟩ := by
  simp only [classifyIntent, if_neg hne]
  have hbest : intentsInOrder.foldl
      (fun bm i => if calculateIntentScore (trimL s.data) i > bm.2 then
        (i, calculateIntentScore (trimL s.data) i) else bm) (OFF_TOPIC, 0) =
      (OFF_TOPIC, 0) := by
    apply foldl_congr_id
    intro x hx
    simp [hz x hx]
  have hviol : calculateIntentScore (trimL s.data) VIOLATION = 0 :=
    hz VIOLATION (by decide)
  rw [hbest, hviol]
  simp only [gt_iff_lt, Nat.lt_irrefl, if_false, if_pos hlen]
  rfl

/-- C6 (witness): a short garbage input gives chitchat at confidence 1/2. -/
theorem classifyIntent_short_zero_chitchat_witness :
    classifyIntent "zzz" = ⟨CHITCHAT, 1/2, "Short message, assuming chitchat"⟩ :=
  classifyIntent_short_zero_chitchat "zzz" (by decide) (by decide) (by decide)

/-- Characterisation of the classifier's best-score fold: when something
beats the initial score, the fold returns the first intent attaining the
maximum. -/
theorem foldl_best_spec (f : String → Nat) :
    ∀ (l : List String) (b0 : String) (m0 : Nat),
      (∃ i ∈ l, m0 < f i) →
      ∃ l₁ j l₂, l = l₁ ++ j :: l₂ ∧ (∀ k ∈ l₁, f k < f j) ∧ m0 < f j ∧
        (∀ k ∈ l, f k ≤ f j) ∧
        l.foldl (fun bm i => if f i > bm.2 then (i, f i) else bm) (b0, m0) = (j, f j) := by
  intro l
  induction l with
  | nil =>
    rintro b0 m0 ⟨i, hi, _⟩
    cases hi
  | cons a t ih =>
    intro b0 m0 hex
    rw [List.foldl_cons]
    by_cases ha : m0 < f a
    · rw [if_pos ha]
      by_cases hta : ∃ i ∈ t, f a < f i
      · obtain ⟨l₁, j, l₂, hsplit, hl₁, hj, hall, hfold⟩ := ih a (f a) hta
        refine ⟨a :: l₁, j, l₂, by rw [hsplit, List.cons_append], ?_, lt_trans ha hj, ?_, hfold⟩
        · intro k hk
          rcases List.mem_cons.1 hk with hk | hk
          · rw [hk]; exact hj
          · exact hl₁ k hk
        · intro k hk
          rcases List.mem_cons.1 hk with hk | hk
          · rw [hk]; exact le_of_lt hj
          · exact hall k hk
      · push_neg at hta
        have hconst : t.foldl (fun bm i => if f i > bm.2 then (i, f i) else bm) (a, f a) =
            (a, f a) := by
          apply foldl_congr_id
          intro x hx
          simp [Nat.not_lt.2 (hta x hx)]
        refine ⟨[], a, t, rfl, by simp, ha, ?_, hconst⟩
        intro k hk
        rcases List.mem_cons.1 hk with hk | hk
        · rw [hk]
        · exact hta k hk
    · rw [if_neg ha]
      have hex' : ∃ i ∈ t, m0 < f i := by
        rcases hex with ⟨i, hi, hfi⟩
        rcases List.mem_cons.1 hi with hieq | him
        · exact absurd (hieq ▸ hfi) ha
        · exact ⟨i, him, hfi⟩
      obtain ⟨l₁, j, l₂, hsplit, hl₁, hj, hall, hfold⟩ := ih b0 m0 hex'
      refine ⟨a :: l₁, j, l₂, by rw [hsplit, List.cons_append], ?_, hj, ?_, hfold⟩
      · intro k hk
        rcases List.mem_cons.1 hk with hk | hk
        · rw [hk]; exact lt_of_le_of_lt (Nat.not_lt.1 ha) hj
        · exact hl₁ k hk
      · intro k hk
        rcases List.mem_cons.1 hk with hk | hk
        · rw [hk]; exact le_of_lt (lt_of_le_of_lt (Nat.not_lt.1 ha) hj)
        · exact hall k hk

/-- C8: when the violation score is 0 and two (or more) intents tie at the
maximal, positive score, `classifyIntent` returns the tied intent that
comes first in the declared order policy_question, order_status,
product_search, complaint, chitchat, violation, off_topic.  (With a zero
violation score the claim's declared order agrees with the code's
iteration order on every intent that can attain the maximum.) -/
theorem classifyIntent_tie_first_declared (s : String)
    (hv : calculateIntentScore (trimL s.data) VIOLATION = 0)
    (i j : String) (hi : i ∈ claimOrder) (hj : j ∈ claimOrder) (hij : i ≠ j)
    (heq : calculateIntentScore (trimL s.data) j = calculateIntentScore (trimL s.data) i)
    (hpos : 0 < calculateIntentScore (trimL s.data) i)
    (hmax : ∀ k ∈ claimOrder,
      calculateIntentScore (trimL s.data) k ≤ calculateIntentScore (trimL s.data) i) :
    (classifyIntent s).intent =
      (claimOrder.filter (fun k =>
        calculateIntentScore (trimL s.data) k ==
          calculateIntentScore (trimL s.data) i)).headD "" := by
  have hne : s ≠ "" := by
    intro he
    have h0 : ∀ k ∈ claimOrder, calculateIntentScore (trimL "".data) k = 0 := by decide
    rw [he, h0 i hi] at hpos
    exact Nat.lt_irrefl 0 hpos
  have hmemco : ∀ x, x ∈ claimOrder → x ∈ intentsInOrder := by
    intro x hx
    simp only [claimOrder, List.mem_cons, List.not_mem_nil, or_false] at hx
    simp only [intentsInOrder, List.mem_cons, List.not_mem_nil, or_false]
    tauto
  have hmemoc : ∀ x, x ∈ intentsInOrder → x ∈ claimOrder := by
    intro x hx
    simp only [intentsInOrder, List.mem_cons, List.not_mem_nil, or_false] at hx
    simp only [claimOrder, List.mem_cons, List.not_mem_nil, or_false]
    tauto
  obtain ⟨l₁, j₀, l₂, hsplit, hl₁, hj₀, hall, hfold⟩ :=
    foldl_best_spec (fun k => calculateIntentScore (trimL s.data) k)
      intentsInOrder OFF_TOPIC 0 ⟨i, hmemco i hi, hpos⟩
  have hj₀mem : j₀ ∈ intentsInOrder := by
    rw [hsplit]
    exact List.mem_append_right l₁ (List.mem_cons_self j₀ l₂)
  have hfj₀ : calculateIntentScore (trimL s.data) j₀ = calculateIntentScore (trimL s.data) i :=
    le_antisymm (hmax j₀ (hmemoc j₀ hj₀mem)) (hall i (hmemco i hi))
  simp only [classifyIntent, if_neg hne]
  rw [hfold, hv]
  simp only [gt_iff_lt, Nat.lt_irrefl, if_false]
  have hne0 : ¬ ((j₀, calculateIntentScore (trimL s.data) j₀).2 = 0) := by
    simp only []
    omega
  rw [if_neg hne0]
  show j₀ = _
  have hPviol : ((calculateIntentScore (trimL s.data) VIOLATION ==
      calculateIntentScore (trimL s.data) i) = false) := by
    rw [hv]
    exact beq_eq_false_iff_ne.mpr (by omega)
  have hfilter : claimOrder.filter (fun k =>
      calculateIntentScore (trimL s.data) k == calculateIntentScore (trimL s.data) i) =
      intentsInOrder.filter (fun k =>
        calculateIntentScore (trimL s.data) k == calculateIntentScore (trimL s.data) i) := by
    simp only [claimOrder, intentsInOrder, List.filter_cons, List.filter_nil, hPviol,
      Bool.false_eq_true, if_false]
  rw [hfilter, hsplit, List.filter_append]
  have hl₁nil : l₁.filter (fun k =>
      calculateIntentScore (trimL s.data) k == calculateIntentScore (trimL s.data) i) = [] := by
    rw [List.filter_eq_nil_iff]
    intro k hk
    have hklt := hl₁ k hk
    rw [hfj₀] at hklt
    have hfalse : (calculateIntentScore (trimL s.data) k ==
        calculateIntentScore (trimL s.data) i) = false :=
      beq_eq_false_iff_ne.mpr (by omega)
    simp [hfalse]
  rw [hl₁nil, List.nil_append, List.filter_cons, if_pos (by rw [hfj₀]; exact beq_self_eq_true _)]
  rfl

/-- C8 (witness): the input delivery delivered ties policy_question and
order_status at score 2; the classifier picks policy_question, the first
of the two in the declared order. -/
theorem classifyIntent_tie_first_declared_witness :
    (classifyIntent "delivery delivered").intent = POLICY_QUESTION := by
  have h := classifyIntent_tie_first_declared "delivery delivered" (by decide)
    POLICY_QUESTION ORDER_STATUS (by decide) (by decide) (by decide)
    (by decide) (by decide) (by decide)
  rw [h]
  decide

/-- Tokens produced by the LLM-integration scanner are nonempty
alphanumeric-or-dot runs occurring bracketed in the text. -/
theorem extractAll_sound :
    ∀ (l : List Char) (tok : List Char), tok ∈ LLMIntegration.extractAll l →
      tok ≠ [] ∧ (∀ c ∈ tok, isAlnumDotB c = true) ∧ ('[' :: (tok ++ [']'])) <:+: l := by
  intro l
  induction l with
  | nil =>
    intro tok htok
    simp [LLMIntegration.extractAll] at htok
  | cons c rest ih =>
    intro tok htok
    by_cases hc : c = '['
    · subst hc
      rw [LLMIntegration.extractAll, if_pos rfl] at htok
      split at htok
      · rcases ih tok htok with ⟨h1, h2, h3⟩
        exact ⟨h1, h2, List.infix_cons h3⟩
      · rename_i run d' hdrop hne0
        rcases List.mem_cons.1 htok with hrun | hrest
        · subst hrun
          refine ⟨fun hemp => hne0 hemp, ?_, ?_⟩
          · intro ch hch
            exact List.mem_takeWhile_imp hch
          · refine List.IsPrefix.isInfix ⟨d', ?_⟩
            have hsplit := List.takeWhile_append_dropWhile (p := isAlnumDotB) (l := rest)
            rw [hdrop] at hsplit
            rw [List.cons_append, List.append_assoc, List.singleton_append, hsplit]
        · rcases ih tok hrest with ⟨h1, h2, h3⟩
          exact ⟨h1, h2, List.infix_cons h3⟩
      · rcases ih tok htok with ⟨h1, h2, h3⟩
        exact ⟨h1, h2, List.infix_cons h3⟩
    · rw [LLMIntegration.extractAll, if_neg hc] at htok
      rcases ih tok htok with ⟨h1, h2, h3⟩
      exact ⟨h1, h2, List.infix_cons h3⟩

/-- Folding `addUniqueL` preserves `Nodup`. -/
theorem foldl_addUniqueL_nodup :
    ∀ (l : List (List Char)) (acc : List (List Char)), acc.Nodup →
      (l.foldl LLMIntegration.addUniqueL acc).Nodup := by
  intro l
  induction l with
  | nil => intro acc h; exact h
  | cons x t ih =>
    intro acc h
    rw [List.foldl_cons]
    apply ih
    unfold LLMIntegration.addUniqueL
    by_cases hc : acc.contains x
    · rw [if_pos hc]; exact h
    · rw [if_neg hc]
      have hnm : x ∉ acc := by simpa using (Bool.of_not_eq_true hc)
      simp [List.nodup_append, h, hnm]

/-- Elements coming out of the de-duplicating fold come from the
accumulator or the input. -/
theorem foldl_addUniqueL_subset :
    ∀ (l : List (List Char)) (acc : List (List Char)) (tok : List Char),
      tok ∈ l.foldl LLMIntegration.addUniqueL acc → tok ∈ acc ∨ tok ∈ l := by
  intro l
  induction l with
  | nil => intro acc tok h; exact Or.inl h
  | cons x t ih =>
    intro acc tok h
    rw [List.foldl_cons] at h
    rcases ih _ tok h with hacc | ht
    · unfold LLMIntegration.addUniqueL at hacc
      by_cases hc : acc.contains x
      · rw [if_pos hc] at hacc; exact Or.inl hacc
      · rw [if_neg hc] at hacc
        rcases List.mem_append.1 hacc with h1 | h2
        · exact Or.inl h1
        · simp only [List.mem_singleton] at h2
          exact Or.inr (h2 ▸ List.mem_cons_self x t)
    · exact Or.inr (List.mem_cons_of_mem x ht)

/-- The LLM scanner skips any character that is not an opening bracket. -/
theorem extractAll_cons_ne (c : Char) (t : List Char) (hc : ¬ c = '[') :
    LLMIntegration.extractAll (c :: t) = LLMIntegration.extractAll t := by
  rw [LLMIntegration.extractAll, if_neg hc]

/-- Completeness of the LLM scanner: every bracketed nonempty
alphanumeric-or-dot token occurrence in the text is found.  (The token of
a bracket occurrence is uniquely determined: the character after it is
`]`, which is not alphanumeric-or-dot.) -/
theorem extractAll_complete :
    ∀ (u tok v : List Char), tok ≠ [] → (∀ c ∈ tok, isAlnumDotB c = true) →
      tok ∈ LLMIntegration.extractAll (u ++ '[' :: (tok ++ ']' :: v)) := by
  intro u
  induction u with
  | nil =>
    intro tok v hne hchars
    rw [List.nil_append]
    have htkself : tok.takeWhile isAlnumDotB = tok := List.takeWhile_eq_self_iff.2 hchars
    have htw : (tok ++ ']' :: v).takeWhile isAlnumDotB = tok := by
      rw [List.takeWhile_append, if_pos (by rw [htkself])]
      rw [show (']' :: v).takeWhile isAlnumDotB = [] from rfl, List.append_nil]
    have hdw : (tok ++ ']' :: v).dropWhile isAlnumDotB = ']' :: v := by
      rw [List.dropWhile_append, List.dropWhile_eq_nil_iff.2 hchars]
      rfl
    obtain ⟨t0, ts, rfl⟩ := List.exists_cons_of_ne_nil hne
    rw [LLMIntegration.extractAll, if_pos rfl, htw, hdw]
    exact List.mem_cons_self _ _
  | cons c u' ih =>
    intro tok v hne hchars
    rw [List.cons_append]
    by_cases hc : c = '['
    · subst hc
      rw [LLMIntegration.extractAll, if_pos rfl]
      split
      · exact ih tok v hne hchars
      · exact List.mem_cons_of_mem _ (ih tok v hne hchars)
      · exact ih tok v hne hchars
    · rw [extractAll_cons_ne c _ hc]
      exact ih tok v hne hchars

/-- Nothing is lost by the de-duplicating fold. -/
theorem foldl_addUniqueL_complete :
    ∀ (l acc : List (List Char)) (x : List Char), x ∈ acc ∨ x ∈ l →
      x ∈ l.foldl LLMIntegration.addUniqueL acc := by
  intro l
  induction l with
  | nil =>
    intro acc x h
    rcases h with h | h
    · exact h
    · cases h
  | cons y t ih =>
    intro acc x h
    rw [List.foldl_cons]
    apply ih
    unfold LLMIntegration.addUniqueL
    by_cases hc : acc.contains y
    · rw [if_pos hc]
      rcases h with h | h
      · exact Or.inl h
      · rcases List.mem_cons.1 h with h | h
        · exact Or.inl (h ▸ (by simpa using hc))
        · exact Or.inr h
    · rw [if_neg hc]
      rcases h with h | h
      · exact Or.inl (List.mem_append_left _ h)
      · rcases List.mem_cons.1 h with h | h
        · exact Or.inl (List.mem_append_right _ (h ▸ List.mem_singleton.2 rfl))
        · exact Or.inr h

/-- Index of the first occurrence of a token in a token sequence. -/
def idxOfL (x : List Char) : List (List Char) → Nat
  | [] => 0
  | y :: t => if y = x then 0 else idxOfL x t + 1

/-- First-occurrence index localises to the left part when present there. -/
theorem idxOfL_append_of_mem {x : List Char} :
    ∀ {l₁ : List (List Char)} (l₂ : List (List Char)), x ∈ l₁ →
      idxOfL x (l₁ ++ l₂) = idxOfL x l₁ := by
  intro l₁
  induction l₁ with
  | nil =>
    intro l₂ h
    cases h
  | cons y t ih =>
    intro l₂ h
    rw [List.cons_append, idxOfL, idxOfL]
    by_cases hy : y = x
    · rw [if_pos hy, if_pos hy]
    · rw [if_neg hy, if_neg hy]
      rcases List.mem_cons.1 h with h | h
      · exact absurd h.symm hy
      · rw [ih l₂ h]

/-- First-occurrence index skips the whole left part when absent there. -/
theorem idxOfL_append_of_not_mem {x : List Char} :
    ∀ {l₁ : List (List Char)} (l₂ : List (List Char)), x ∉ l₁ →
      idxOfL x (l₁ ++ l₂) = l₁.length + idxOfL x l₂ := by
  intro l₁
  induction l₁ with
  | nil =>
    intro l₂ _
    rw [List.nil_append, List.length_nil, Nat.zero_add]
  | cons y t ih =>
    intro l₂ h
    rw [List.cons_append, idxOfL, List.length_cons]
    have hy : ¬ y = x := fun he => h (he ▸ List.mem_cons_self y t)
    rw [if_neg hy, ih l₂ (fun hm => h (List.mem_cons_of_mem y hm))]
    omega

/-- A present token's first-occurrence index is within the list. -/
theorem idxOfL_lt_length {x : List Char} :
    ∀ {l : List (List Char)}, x ∈ l → idxOfL x l < l.length := by
  intro l
  induction l with
  | nil =>
    intro h
    cases h
  | cons y t ih =>
    intro h
    rw [idxOfL, List.length_cons]
    by_cases hy : y = x
    · rw [if_pos hy]
      omega
    · rw [if_neg hy]
      rcases List.mem_cons.1 h with h | h
      · exact absurd h.symm hy
      · have := ih h
        omega

/-- The de-duplicating fold keeps first-seen order: its output is sorted
by index of first occurrence in the scanned sequence. -/
theorem foldl_addUniqueL_order (l : List (List Char)) :
    ∀ (suf pre acc : List (List Char)), l = pre ++ suf →
      (∀ x, x ∈ acc ↔ x ∈ pre) →
      acc.Pairwise (fun a b => idxOfL a l < idxOfL b l) →
      (suf.foldl LLMIntegration.addUniqueL acc).Pairwise
        (fun a b => idxOfL a l < idxOfL b l) := by
  intro suf
  induction suf with
  | nil =>
    intro pre acc _ _ hpair
    exact hpair
  | cons y t ih =>
    intro pre acc hl hmem hpair
    rw [List.foldl_cons]
    by_cases hc : acc.contains y
    · rw [show LLMIntegration.addUniqueL acc y = acc from by
        unfold LLMIntegration.addUniqueL; rw [if_pos hc]]
      refine ih (pre ++ [y]) acc (by rw [hl]; simp) ?_ hpair
      intro x
      rw [hmem x, List.mem_append, List.mem_singleton]
      constructor
      · exact fun h => Or.inl h
      · rintro (h | rfl)
        · exact h
        · exact (hmem x).1 (by simpa using hc)
    · rw [show LLMIntegration.addUniqueL acc y = acc ++ [y] from by
        unfold LLMIntegration.addUniqueL; rw [if_neg hc]]
      have hynp : y ∉ pre := fun hyp => hc (by simpa using (hmem y).2 hyp)
      have hidxy : idxOfL y l = pre.length := by
        rw [hl, idxOfL_append_of_not_mem _ hynp, idxOfL, if_pos rfl]
        omega
      have hpair2 : (acc ++ [y]).Pairwise
          (fun a b => idxOfL a l < idxOfL b l) := by
        rw [List.pairwise_append]
        refine ⟨hpair, List.pairwise_singleton _ _, ?_⟩
        intro a ha b hb
        rw [List.mem_singleton] at hb
        subst hb
        have hap : a ∈ pre := (hmem a).1 ha
        rw [hidxy, hl, idxOfL_append_of_mem _ hap]
        exact idxOfL_lt_length hap
      refine ih (pre ++ [y]) (acc ++ [y]) (by rw [hl]; simp) ?_ hpair2
      intro x
      simp only [List.mem_append, List.mem_singleton, hmem x]

/-- C5 (amended): `LLMIntegration.extractCitations` returns exactly the
bracketed nonempty alphanumeric-or-dot tokens of the text, de-duplicated,
in first-seen order: the result is duplicate-free; every returned token
occurs bracketed in the text; every bracketed token occurrence is
returned; and the returned tokens are ordered by the index of their first
occurrence in the scan.  (The citation-validator `extractCitations` has
neither the de-duplication nor this token syntax: see the
counterexample.) -/
theorem llm_extractCitations_spec (text : String) :
    (LLMIntegration.extractCitations text).Nodup ∧
      (∀ tok ∈ LLMIntegration.extractCitations text,
        tok ≠ [] ∧ (∀ c ∈ tok, isAlnumDotB c = true) ∧
          ('[' :: (tok ++ [']'])) <:+: text.data) ∧
      (∀ u tok v : List Char, text.data = u ++ '[' :: (tok ++ ']' :: v) →
        tok ≠ [] → (∀ c ∈ tok, isAlnumDotB c = true) →
        tok ∈ LLMIntegration.extractCitations text) ∧
      (LLMIntegration.extractCitations text).Pairwise
        (fun a b => idxOfL a (LLMIntegration.extractAll text.data) <
          idxOfL b (LLMIntegration.extractAll text.data)) := by
  refine ⟨?_, ?_, ?_, ?_⟩
  · exact foldl_addUniqueL_nodup _ [] List.nodup_nil
  · intro tok htok
    rcases foldl_addUniqueL_subset _ [] tok htok with h | h
    · cases h
    · exact extractAll_sound text.data tok h
  · intro u tok v heq hne hchars
    apply foldl_addUniqueL_complete _ [] tok
    refine Or.inr ?_
    rw [heq]
    exact extractAll_complete u tok v hne hchars
  · exact foldl_addUniqueL_order (LLMIntegration.extractAll text.data)
      (LLMIntegration.extractAll text.data) [] [] rfl (by simp) List.Pairwise.nil

/-- C5 (witness): on a concrete text the extracted token `P1.2` is a
nonempty alphanumeric-or-dot run occurring bracketed in the text, and the
concrete bracket occurrence `see [P1.2] ok` is indeed extracted. -/
theorem llm_extractCitations_spec_witness :
    ("P1.2".data ≠ [] ∧ (∀ c ∈ "P1.2".data, isAlnumDotB c = true) ∧
      ('[' :: ("P1.2".data ++ [']'])) <:+: "see [P1.2] ok".data) ∧
      "P1.2".data ∈ LLMIntegration.extractCitations "see [P1.2] ok" :=
  ⟨(llm_extractCitations_spec "see [P1.2] ok").2.1 "P1.2".data (by decide),
   (llm_extractCitations_spec "see [P1.2] ok").2.2.1 "see ".data "P1.2".data " ok".data
     (by decide) (by decide) (by decide)⟩

/-- C5 (counterexample): the citation-validator `extractCitations` does
not de-duplicate (and it rejects tokens that do not start with a letter,
which the claimed alphanumeric-or-dot syntax admits); the LLM-integration
version behaves as the claim states. -/
theorem cv_extractCitations_not_dedup :
    CitationValidator.extractCitations "[A] [A]" = ["A".data, "A".data] ∧
      ¬ (CitationValidator.extractCitations "[A] [A]").Nodup ∧
      CitationValidator.extractCitations "[9x]" = [] ∧
      LLMIntegration.extractCitations "[A] [A]" = ["A".data] ∧
      LLMIntegration.extractCitations "[9x]" = ["9x".data] :=
  ⟨by decide, by decide, by decide, by decide, by decide⟩

/-- Scanning skips any character that is not an opening bracket. -/
theorem extractTokens_cons_ne (c : Char) (t : List Char) (hc : ¬ c = '[') :
    CitationValidator.extractTokens (c :: t) = CitationValidator.extractTokens t := by
  rw [CitationValidator.extractTokens, if_neg hc]

/-- Scanning a bracket-free block finds nothing before the rest. -/
theorem extractTokens_no_bracket (l m : List Char) (h : ∀ c ∈ l, ¬ c = '[') :
    CitationValidator.extractTokens (l ++ m) = CitationValidator.extractTokens m := by
  induction l with
  | nil => rfl
  | cons c t ih =>
    rw [List.cons_append, extractTokens_cons_ne c _ (h c (List.mem_cons_self c t))]
    exact ih (fun x hx => h x (List.mem_cons_of_mem c hx))

/-- `takeWhile`/`dropWhile` of an appended list localise to the first part
when the first part already contains a failing element. -/
theorem takeWhile_dropWhile_append {p : Char → Bool} (xs ys : List Char)
    (h : xs.dropWhile p ≠ []) :
    (xs ++ ys).takeWhile p = xs.takeWhile p ∧
      (xs ++ ys).dropWhile p = xs.dropWhile p ++ ys := by
  have hlen : ¬ ((xs.takeWhile p).length = xs.length) := by
    intro hl
    apply h
    rw [List.dropWhile_eq_nil_iff]
    have heq := (List.takeWhile_prefix (p := p) (l := xs)).eq_of_length hl
    intro x hx
    rw [← heq] at hx
    exact List.mem_takeWhile_imp hx
  refine ⟨?_, ?_⟩
  · rw [List.takeWhile_append, if_neg hlen]
  · rw [List.dropWhile_append]
    have hie : (xs.dropWhile p).isEmpty = false := List.isEmpty_eq_false.2 h
    rw [hie]
    rfl

/-- The citation scanner distributes over appending at a space character:
no match can span the boundary, because a space can occur neither inside a
token body nor as its closing bracket. -/
theorem extractTokens_append_sep (s t : List Char) :
    CitationValidator.extractTokens (s ++ ' ' :: t) =
      CitationValidator.extractTokens s ++ CitationValidator.extractTokens (' ' :: t) := by
  induction s with
  | nil => rfl
  | cons c rest ih =>
    rw [List.cons_append]
    by_cases hc : c = '['
    · subst hc
      rw [CitationValidator.extractTokens, if_pos rfl]
      conv_rhs => rw [CitationValidator.extractTokens, if_pos rfl]
      by_cases hall : rest.dropWhile isWordDotB = []
      · have happ : (rest ++ ' ' :: t).dropWhile isWordDotB = ' ' :: t := by
          rw [List.dropWhile_append, hall]
          rfl
        rw [happ, hall]
        rw [List.head?_cons, if_neg (by decide : ¬ ((some ' ' : Option Char) = some ']'))]
        rw [show (([] : List Char)).head? = none from rfl]
        rw [if_neg (by decide : ¬ ((none : Option Char) = some ']'))]
        exact ih
      · obtain ⟨htk, hdr⟩ := takeWhile_dropWhile_append rest (' ' :: t) hall
        rcases hdw : rest.dropWhile isWordDotB with _ | ⟨e, ds⟩
        · exact absurd hdw hall
        · have happ : (rest ++ ' ' :: t).dropWhile isWordDotB = e :: (ds ++ ' ' :: t) := by
            rw [hdr, hdw]
            rfl
          rw [happ, List.head?_cons, List.head?_cons, htk]
          by_cases he : (some e : Option Char) = some ']'
          · rw [if_pos he, if_pos he]
            by_cases hst : startsLetterB (rest.takeWhile isWordDotB) = true
            · rw [if_pos hst, if_pos hst, ih]
              rfl
            · rw [if_neg hst, if_neg hst]
              exact ih
          · rw [if_neg he, if_neg he]
            exact ih
    · rw [extractTokens_cons_ne c _ hc, extractTokens_cons_ne c _ hc]
      exact ih

/-- Scanning a single well-formed bracketed token yields that token when
its first character is a letter, and nothing at all otherwise. -/
theorem extractTokens_bracket_id (id : List Char) (hid : ∀ c ∈ id, isWordDotB c = true) :
    CitationValidator.extractTokens ('[' :: (id ++ [']'])) = [] ∨
      CitationValidator.extractTokens ('[' :: (id ++ [']'])) = [id] := by
  have hnb : ∀ c ∈ id, ¬ c = '[' := by
    intro c hc he
    have hw := hid c hc
    rw [he] at hw
    exact absurd hw (by decide)
  have hnil : id.dropWhile isWordDotB = [] := List.dropWhile_eq_nil_iff.2 hid
  have hdw : (id ++ [']']).dropWhile isWordDotB = [']'] := by
    rw [List.dropWhile_append, hnil]
    rfl
  have hts : id.takeWhile isWordDotB = id := List.takeWhile_eq_self_iff.2 hid
  have htw : (id ++ [']']).takeWhile isWordDotB = id := by
    rw [List.takeWhile_append, if_pos (by rw [hts])]
    rw [show ([']'] : List Char).takeWhile isWordDotB = [] from rfl, List.append_nil]
  have hrest : CitationValidator.extractTokens (id ++ [']']) = [] := by
    rw [extractTokens_no_bracket id [']'] hnb]
    rfl
  rw [CitationValidator.extractTokens, if_pos rfl, hdw, List.head?_cons, if_pos rfl, htw]
  by_cases hst : startsLetterB id = true
  · right
    rw [if_pos hst, hrest]
  · left
    rw [if_neg hst]
    exact hrest

/-- `isValid` means every extracted citation resolves in the store. -/
theorem validateCitations_isValid_iff (kb : List KnowledgeEntry)
    (cits : List (List Char)) :
    (CitationValidator.validateCitations kb cits).isValid = true ↔
      ∀ c ∈ cits, (kb.find? (fun p => p.id.data == c)).isSome = true := by
  unfold CitationValidator.validateCitations
  simp only [Nat.beq_eq_true_eq, List.length_eq_zero, List.filter_eq_nil_iff]
  constructor
  · intro h c hc
    have hn := h c hc
    cases hfind : kb.find? (fun p => p.id.data == c) with
    | none => rw [hfind] at hn; exact absurd rfl hn
    | some v => rfl
  · intro h c hc
    have hs := h c hc
    cases hfind : kb.find? (fun p => p.id.data == c) with
    | none => rw [hfind] at hs; exact absurd hs (by decide)
    | some v => simp

/-- C1 witness knowledge store. -/
def kbP1 : List KnowledgeEntry :=
  [⟨"P1", "returns", "What is the return window?", "Thirty days.", none⟩]

/-- C1 (counterexample): the round-trip claim fails when the answer text
itself contains a bracketed token that is not a knowledge-store id: with
store `[P1]`, answer `see [Z99]` and real id `P1`, the concatenation
validates to `isValid = false`. -/
theorem citation_roundtrip_cx :
    (∃ p ∈ kbP1, p.id = "P1") ∧
      (CitationValidator.validateCitations kbP1
        (CitationValidator.extractCitations ("see [Z99]" ++ " [" ++ "P1" ++ "]"))).isValid =
        false := by
  constructor
  · exact ⟨⟨"P1", "returns", "What is the return window?", "Thirty days.", none⟩,
      List.mem_cons_self _ _, rfl⟩
  · decide

/-- C1 (amended): the round trip holds provided the answer part carries no
invalid citation of its own: if every citation extracted from `answer`
validates against the store, `id` is the id of a store entry, and `id`
consists of word-or-dot characters (as every real id does), then
`validateCitations(extractCitations(answer ++ " [" ++ id ++ "]")).isValid`
is true. -/
theorem citation_roundtrip_valid (kb : List KnowledgeEntry) (answer id : String)
    (hans : (CitationValidator.validateCitations kb
      (CitationValidator.extractCitations answer)).isValid = true)
    (hmem : ∃ p ∈ kb, p.id = id)
    (hchars : ∀ c ∈ id.data, isWordDotB c = true) :
    (CitationValidator.validateCitations kb
      (CitationValidator.extractCitations (answer ++ " [" ++ id ++ "]"))).isValid = true := by
  have hdata : (answer ++ " [" ++ id ++ "]").data =
      answer.data ++ ' ' :: ('[' :: (id.data ++ [']'])) := by
    simp [String.data_append]
  unfold CitationValidator.extractCitations at hans ⊢
  rw [hdata, extractTokens_append_sep,
    extractTokens_cons_ne ' ' _ (by decide)]
  rw [validateCitations_isValid_iff]
  rw [validateCitations_isValid_iff] at hans
  intro c hc
  rcases List.mem_append.1 hc with h1 | h2
  · exact hans c h1
  · rcases extractTokens_bracket_id id.data hchars with hnil | hid
    · rw [hnil] at h2
      cases h2
    · rw [hid] at h2
      simp only [List.mem_singleton] at h2
      subst h2
      rcases hmem with ⟨p, hp, hpid⟩
      exact List.find?_isSome.2 ⟨p, hp, by rw [hpid]; exact beq_self_eq_true _⟩

/-- C1 (witness): with store `[P1]`, a clean answer and the id `P1`, the
round trip validates. -/
theorem citation_roundtrip_valid_witness :
    (CitationValidator.validateCitations kbP1
      (CitationValidator.extractCitations
        ("Returns are accepted within thirty days." ++ " [" ++ "P1" ++ "]"))).isValid = true :=
  citation_roundtrip_valid kbP1 "Returns are accepted within thirty days." "P1"
    (by decide)
    ⟨⟨"P1", "returns", "What is the return window?", "Thirty days.", none⟩,
      List.mem_cons_self _ _, rfl⟩
    (by decide)

/-- `insertDesc` is insertion up to permutation. -/
theorem insertDesc_perm (x : KnowledgeEntry × Nat) (l : List (KnowledgeEntry × Nat)) :
    List.Perm (LLMIntegration.insertDesc x l) (x :: l) := by
  induction l with
  | nil => exact List.Perm.refl _
  | cons y ys ih =>
    unfold LLMIntegration.insertDesc
    by_cases h : x.2 > y.2
    · rw [if_pos h]
    · rw [if_neg h]
      exact (ih.cons y).trans (List.Perm.swap x y ys)

/-- The stable descending sort is a permutation of its input. -/
theorem foldl_insertDesc_perm :
    ∀ (l acc : List (KnowledgeEntry × Nat)),
      List.Perm (l.foldl (fun acc x => LLMIntegration.insertDesc x acc) acc) (acc ++ l) := by
  intro l
  induction l with
  | nil =>
    intro acc
    rw [List.append_nil]
    exact List.Perm.refl _
  | cons x t ih =>
    intro acc
    rw [List.foldl_cons]
    refine (ih _).trans ?_
    refine (((insertDesc_perm x acc).append_right t).trans ?_)
    exact List.perm_middle.symm

/-- `insertDesc` preserves descending sortedness. -/
theorem insertDesc_pairwise (x : KnowledgeEntry × Nat) (l : List (KnowledgeEntry × Nat))
    (h : l.Pairwise (fun a b => b.2 ≤ a.2)) :
    (LLMIntegration.insertDesc x l).Pairwise (fun a b => b.2 ≤ a.2) := by
  induction l with
  | nil => simp [LLMIntegration.insertDesc]
  | cons y ys ih =>
    rcases List.pairwise_cons.1 h with ⟨hy, hys⟩
    unfold LLMIntegration.insertDesc
    by_cases hgt : x.2 > y.2
    · rw [if_pos hgt]
      refine List.pairwise_cons.2 ⟨?_, h⟩
      intro z hz
      rcases List.mem_cons.1 hz with hz | hz
      · rw [hz]; exact le_of_lt hgt
      · exact le_trans (hy z hz) (le_of_lt hgt)
    · rw [if_neg hgt]
      refine List.pairwise_cons.2 ⟨?_, ih hys⟩
      intro z hz
      have hz2 := (insertDesc_perm x ys).mem_iff.1 hz
      rcases List.mem_cons.1 hz2 with hz2 | hz2
      · rw [hz2]; exact Nat.le_of_not_lt hgt
      · exact hy z hz2

/-- The stable descending sort sorts. -/
theorem foldl_insertDesc_pairwise :
    ∀ (l acc : List (KnowledgeEntry × Nat)),
      acc.Pairwise (fun a b => b.2 ≤ a.2) →
      (l.foldl (fun acc x => LLMIntegration.insertDesc x acc) acc).Pairwise
        (fun a b => b.2 ≤ a.2) := by
  intro l
  induction l with
  | nil => intro acc h; exact h
  | cons x t ih =>
    intro acc h
    rw [List.foldl_cons]
    exact ih _ (insertDesc_pairwise x acc h)

/-- C4 (amended): `LLMIntegration.findRelevantPolicies` implements the
claimed contract: at most 3 results, each a store entry carrying its
positive score under the +10 / +1-per-keyword / +2-per-category-hit
scheme, in descending score order, and a positively scored entry is only
omitted when three entries of at least its score are returned.  (The
citation-validator function of the same name does not: see the
counterexample.) -/
theorem llm_findRelevantPolicies_top3 (kb : List KnowledgeEntry) (q : String) :
    (LLMIntegration.findRelevantPolicies kb q).length ≤ 3 ∧
      (LLMIntegration.findRelevantPolicies kb q).Pairwise (fun a b => b.2 ≤ a.2) ∧
      (∀ p ∈ LLMIntegration.findRelevantPolicies kb q,
        p.1 ∈ kb ∧ p.2 = LLMIntegration.scoreOf q p.1 ∧ 0 < p.2) ∧
      (∀ e ∈ kb, 0 < LLMIntegration.scoreOf q e →
        (e, LLMIntegration.scoreOf q e) ∈ LLMIntegration.findRelevantPolicies kb q ∨
          ((LLMIntegration.findRelevantPolicies kb q).length = 3 ∧
            ∀ p ∈ LLMIntegration.findRelevantPolicies kb q,
              LLMIntegration.scoreOf q e ≤ p.2)) := by
  have hr : LLMIntegration.findRelevantPolicies kb q =
      (LLMIntegration.sortByScoreDesc
        ((kb.map (fun p => (p, LLMIntegration.scoreOf q p))).filter
          (fun ps => ps.2 > 0))).take 3 := rfl
  set S := LLMIntegration.sortByScoreDesc
    ((kb.map (fun p => (p, LLMIntegration.scoreOf q p))).filter (fun ps => ps.2 > 0)) with hS
  have hperm : List.Perm S
      ((kb.map (fun p => (p, LLMIntegration.scoreOf q p))).filter (fun ps => ps.2 > 0)) := by
    rw [hS]
    unfold LLMIntegration.sortByScoreDesc
    exact (foldl_insertDesc_perm _ []).trans (by rw [List.nil_append])
  have hsorted : S.Pairwise (fun a b => b.2 ≤ a.2) := by
    rw [hS]
    unfold LLMIntegration.sortByScoreDesc
    exact foldl_insertDesc_pairwise _ [] List.Pairwise.nil
  refine ⟨?_, ?_, ?_, ?_⟩
  · rw [hr, List.length_take]
    exact Nat.min_le_left _ _
  · rw [hr]
    exact hsorted.sublist (List.take_sublist 3 S)
  · intro p hp
    rw [hr] at hp
    have hpS : p ∈ S := List.mem_of_mem_take hp
    have hpf := hperm.mem_iff.1 hpS
    rcases List.mem_filter.1 hpf with ⟨hpm, hppos⟩
    rcases List.mem_map.1 hpm with ⟨e, he, hpe⟩
    refine ⟨?_, ?_, ?_⟩
    · rw [← hpe]; exact he
    · rw [← hpe]
    · exact of_decide_eq_true hppos
  · intro e he hpos
    have hmem : (e, LLMIntegration.scoreOf q e) ∈ S := by
      refine hperm.mem_iff.2 (List.mem_filter.2 ⟨List.mem_map_of_mem _ he, ?_⟩)
      exact decide_eq_true hpos
    by_cases htake : (e, LLMIntegration.scoreOf q e) ∈ S.take 3
    · left
      rw [hr]
      exact htake
    · right
      have hdrop : (e, LLMIntegration.scoreOf q e) ∈ S.drop 3 := by
        rcases List.mem_append.1 (by rw [List.take_append_drop 3 S]; exact hmem) with h | h
        · exact absurd h htake
        · exact h
      have hlen : 3 < S.length := by
        by_contra hle
        rw [List.drop_eq_nil_of_le (Nat.le_of_not_lt hle)] at hdrop
        cases hdrop
      constructor
      · rw [hr, List.length_take]
        omega
      · intro p hp
        rw [hr] at hp
        have hpair : (S.take 3 ++ S.drop 3).Pairwise (fun a b => b.2 ≤ a.2) := by
          rw [List.take_append_drop]
          exact hsorted
        exact (List.pairwise_append.1 hpair).2.2 p hp _ hdrop

/-- C4 witness store: one returns-category entry. -/
def kbW : List KnowledgeEntry :=
  [⟨"R1", "returns", "Can I return items?", "Yes, within 30 days.", none⟩]

/-- C4 (witness): the returns entry scores positively for the query
`return policy` and is indeed returned. -/
theorem llm_findRelevantPolicies_top3_witness :
    (⟨"R1", "returns", "Can I return items?", "Yes, within 30 days.", none⟩,
        LLMIntegration.scoreOf "return policy"
          ⟨"R1", "returns", "Can I return items?", "Yes, within 30 days.", none⟩) ∈
        LLMIntegration.findRelevantPolicies kbW "return policy" ∨
      ((LLMIntegration.findRelevantPolicies kbW "return policy").length = 3 ∧
        ∀ p ∈ LLMIntegration.findRelevantPolicies kbW "return policy",
          LLMIntegration.scoreOf "return policy"
            ⟨"R1", "returns", "Can I return items?", "Yes, within 30 days.", none⟩ ≤ p.2) :=
  (llm_findRelevantPolicies_top3 kbW "return policy").2.2.2
    ⟨"R1", "returns", "Can I return items?", "Yes, within 30 days.", none⟩
    (by decide) (by decide)

/-- C4 counterexample store: one entry the claimed scoring gives 0. -/
def kbHi : List KnowledgeEntry := [⟨"E1", "misc", "hi", "zz", none⟩]

/-- C4 (counterexample): the citation-validator `findRelevantPolicies`
returns an entry whose score under the claimed scheme is 0 (its direct
question-matching fallback fires on a question prefix), while the claim
demands the empty list when nothing scores positively. -/
theorem cv_findRelevantPolicies_not_scored :
    CitationValidator.findRelevantPolicies kbHi "hi there friend" =
        [⟨"E1", "misc", "hi", "zz", none⟩] ∧
      LLMIntegration.scoreOf "hi there friend" ⟨"E1", "misc", "hi", "zz", none⟩ = 0 :=
  ⟨by decide, by decide⟩

/-- An all-alphanumeric pattern cannot start at a non-alphanumeric head. -/
theorem infix_cons_of_not_head {p : List Char} {a : Char} {t : List Char}
    (hp : ∀ c ∈ p, isAlnumB c = true) (ha : isAlnumB a = false) (hne : p ≠ []) :
    p <:+: a :: t → p <:+: t := by
  intro h
  rcases List.infix_cons_iff.1 h with hpre | hinf
  · rcases p with _ | ⟨p0, ps⟩
    · exact absurd rfl hne
    · rcases List.cons_prefix_cons.1 hpre with ⟨hpa, _⟩
      have := hp p0 (List.mem_cons_self p0 ps)
      rw [hpa, ha] at this
      cases this
  · exact hinf

/-- An all-alphanumeric prefix of `x ++ sep :: y` (with `sep` not
alphanumeric) is a prefix of `x`. -/
theorem prefix_sep {p : List Char} {s : Char} {y : List Char}
    (hp : ∀ c ∈ p, isAlnumB c = true) (hs : isAlnumB s = false) :
    ∀ x : List Char, p <+: x ++ s :: y → p <+: x := by
  induction p with
  | nil => intro x _; exact List.nil_prefix
  | cons p0 ps ih =>
    intro x h
    cases x with
    | nil =>
      rcases List.cons_prefix_cons.1 h with ⟨hpa, _⟩
      have := hp p0 (List.mem_cons_self p0 ps)
      rw [hpa, hs] at this
      cases this
    | cons a xs =>
      rw [List.cons_append] at h
      rcases List.cons_prefix_cons.1 h with ⟨hpa, hps⟩
      exact List.cons_prefix_cons.2
        ⟨hpa, ih (fun c hc => hp c (List.mem_cons_of_mem p0 hc)) xs hps⟩

/-- An all-alphanumeric infix of `x ++ sep :: y` (with `sep` not
alphanumeric) lies inside `x` or inside `y`. -/
theorem sep_split {p : List Char} {s : Char}
    (hp : ∀ c ∈ p, isAlnumB c = true) (hs : isAlnumB s = false) :
    ∀ x y : List Char, p <:+: x ++ s :: y → p <:+: x ∨ p <:+: y := by
  intro x
  induction x with
  | nil =>
    intro y h
    by_cases hne : p = []
    · left
      rw [hne]
    · right
      exact infix_cons_of_not_head hp hs hne h
  | cons a xs ih =>
    intro y h
    rw [List.cons_append] at h
    rcases List.infix_cons_iff.1 h with hpre | hinf
    · left
      exact (prefix_sep hp hs (a :: xs)
        (by rw [List.cons_append]; exact hpre)).isInfix
    · rcases ih y hinf with h1 | h2
      · left
        exact List.infix_cons h1
      · right
        exact h2

/-- An all-alphanumeric pattern skips over a block of stars. -/
theorem stars_drop {p y : List Char} (hp : ∀ c ∈ p, isAlnumB c = true) (hne : p ≠ []) :
    ∀ n : Nat, p <:+: List.replicate n '*' ++ y → p <:+: y := by
  intro n
  induction n with
  | zero => intro h; exact h
  | succ m ih =>
    intro h
    rw [List.replicate_succ, List.cons_append] at h
    exact ih (infix_cons_of_not_head hp (by decide) hne h)

/-- What `findOrderId` returns: an alphanumeric run of length ≥ 10. -/
theorem findOrderId_spec :
    ∀ (l r : List Char), findOrderId l = some r →
      10 ≤ r.length ∧ ∀ c ∈ r, isAlnumB c = true := by
  intro l
  induction l with
  | nil =>
    intro r h
    simp [findOrderId] at h
  | cons c rest ih =>
    intro r h
    simp only [findOrderId] at h
    by_cases hlen : 10 ≤ ((c :: rest).takeWhile isAlnumB).length
    · rw [if_pos hlen] at h
      rcases Option.some.inj h with rfl
      exact ⟨hlen, fun x hx => List.mem_takeWhile_imp hx⟩
    · rw [if_neg hlen] at h
      exact ih r h

/-- The unmasked order id cannot occur in the rendered answer unless it
occurs in one of the lookup-supplied text fields: every maximal
alphanumeric run of the template is shorter than 10 characters, so an
occurrence must sit inside `status`, the carrier name, or the rendered
ETA. -/
theorem orderId_not_in_answer (oid : List Char) (st : OrderStatusInfo)
    (renderDate : String → String)
    (hlen : 10 ≤ oid.length) (halnum : ∀ c ∈ oid, isAlnumB c = true)
    (hs : ¬ oid <:+: st.status.data)
    (hc : ∀ c, st.carrier = some c → ¬ oid <:+: c.data)
    (he : ∀ e, st.eta = some e → ¬ oid <:+: (renderDate e).data) :
    ¬ oid <:+: (Engine.renderAnswer renderDate oid st).data := by
  intro hmem
  have hne : oid ≠ [] := by
    intro hnil
    rw [hnil] at hlen
    simp at hlen
  have hdlen : (oid.drop (oid.length - 4)).length = 4 := by
    rw [List.length_drop]
    omega
  have hmk : ∀ l : List Char, (String.mk l).data = l := fun _ => rfl
  -- the shared head of the rendered answer, as an explicitly nested list
  have hcommon : ∀ tail : List Char,
      oid <:+: ['O', 'r', 'd', 'e', 'r'] ++ ' ' ::
        (List.replicate (oid.length - 4) '*' ++ (oid.drop (oid.length - 4) ++ ' ' ::
          (['s', 't', 'a', 't', 'u', 's'] ++ ':' :: (' ' ::
            (st.status.data ++ '.' :: tail))))) →
      oid <:+: tail := by
    intro tail h
    rcases sep_split halnum (by decide) _ _ h with h5 | h
    · have := h5.length_le
      simp at this
      omega
    · have h2 := stars_drop halnum hne _ h
      rcases sep_split halnum (by decide) _ _ h2 with h4 | h
      · have := h4.length_le
        rw [hdlen] at this
        omega
      · rcases sep_split halnum (by decide) _ _ h with h6 | h
        · have := h6.length_le
          simp at this
          omega
        · have h3 := infix_cons_of_not_head halnum (by decide) hne h
          rcases sep_split halnum (by decide) _ _ h3 with hstat | h
          · exact absurd hstat hs
          · exact h
  rcases hcar : st.carrier with _ | c <;> rcases heta : st.eta with _ | e
  · -- no carrier, no eta
    have hshape : (Engine.renderAnswer renderDate oid st).data =
        ['O', 'r', 'd', 'e', 'r'] ++ ' ' ::
          (List.replicate (oid.length - 4) '*' ++ (oid.drop (oid.length - 4) ++ ' ' ::
            (['s', 't', 'a', 't', 'u', 's'] ++ ':' :: (' ' ::
              (st.status.data ++ '.' :: []))))) := by
      simp [Engine.renderAnswer, Engine.maskId, hcar, heta, hmk, String.data_append]
    rw [hshape] at hmem
    have h := hcommon [] hmem
    rw [List.infix_nil] at h
    exact hne h
  · -- eta only
    have hshape : (Engine.renderAnswer renderDate oid st).data =
        ['O', 'r', 'd', 'e', 'r'] ++ ' ' ::
          (List.replicate (oid.length - 4) '*' ++ (oid.drop (oid.length - 4) ++ ' ' ::
            (['s', 't', 'a', 't', 'u', 's'] ++ ':' :: (' ' ::
              (st.status.data ++ '.' ::
                (' ' :: (['E', 'T', 'A'] ++ ':' :: (' ' ::
                  ((renderDate e).data ++ '.' :: []))))))))) := by
      simp [Engine.renderAnswer, Engine.maskId, hcar, heta, hmk, String.data_append]
    rw [hshape] at hmem
    have h := hcommon _ hmem
    have h2 := infix_cons_of_not_head halnum (by decide) hne h
    rcases sep_split halnum (by decide) _ _ h2 with h7 | h
    · have := h7.length_le
      simp at this
      omega
    · have h3 := infix_cons_of_not_head halnum (by decide) hne h
      rcases sep_split halnum (by decide) _ _ h3 with hrd | h
      · exact absurd hrd (he e heta)
      · rw [List.infix_nil] at h
        exact hne h
  · -- carrier only
    have hshape : (Engine.renderAnswer renderDate oid st).data =
        ['O', 'r', 'd', 'e', 'r'] ++ ' ' ::
          (List.replicate (oid.length - 4) '*' ++ (oid.drop (oid.length - 4) ++ ' ' ::
            (['s', 't', 'a', 't', 'u', 's'] ++ ':' :: (' ' ::
              (st.status.data ++ '.' ::
                (' ' :: (['C', 'a', 'r', 'r', 'i', 'e', 'r'] ++ ':' :: (' ' ::
                  (c.data ++ '.' :: []))))))))) := by
      simp [Engine.renderAnswer, Engine.maskId, hcar, heta, hmk, String.data_append]
    rw [hshape] at hmem
    have h := hcommon _ hmem
    have h2 := infix_cons_of_not_head halnum (by decide) hne h
    rcases sep_split halnum (by decide) _ _ h2 with h7 | h
    · have := h7.length_le
      simp at this
      omega
    · have h3 := infix_cons_of_not_head halnum (by decide) hne h
      rcases sep_split halnum (by decide) _ _ h3 with hcd | h
      · exact absurd hcd (hc c hcar)
      · rw [List.infix_nil] at h
        exact hne h
  · -- carrier and eta
    have hshape : (Engine.renderAnswer renderDate oid st).data =
        ['O', 'r', 'd', 'e', 'r'] ++ ' ' ::
          (List.replicate (oid.length - 4) '*' ++ (oid.drop (oid.length - 4) ++ ' ' ::
            (['s', 't', 'a', 't', 'u', 's'] ++ ':' :: (' ' ::
              (st.status.data ++ '.' ::
                (' ' :: (['C', 'a', 'r', 'r', 'i', 'e', 'r'] ++ ':' :: (' ' ::
                  (c.data ++ '.' ::
                    (' ' :: (['E', 'T', 'A'] ++ ':' :: (' ' ::
                      ((renderDate e).data ++ '.' :: []))))))))))))) := by
      simp [Engine.renderAnswer, Engine.maskId, hcar, heta, hmk, String.data_append]
    rw [hshape] at hmem
    have h := hcommon _ hmem
    have h2 := infix_cons_of_not_head halnum (by decide) hne h
    rcases sep_split halnum (by decide) _ _ h2 with h7 | h
    · have := h7.length_le
      simp at this
      omega
    · have h3 := infix_cons_of_not_head halnum (by decide) hne h
      rcases sep_split halnum (by decide) _ _ h3 with hcd | h
      · exact absurd hcd (hc c hcar)
      · have h4 := infix_cons_of_not_head halnum (by decide) hne h
        rcases sep_split halnum (by decide) _ _ h4 with h8 | h
        · have := h8.length_le
          simp at this
          omega
        · have h5 := infix_cons_of_not_head halnum (by decide) hne h
          rcases sep_split halnum (by decide) _ _ h5 with hrd | h
          · exact absurd hrd (he e heta)
          · rw [List.infix_nil] at h
            exact hne h

/-- C10 (amended): when the trimmed input contains a run of at least 10
alphanumeric characters and the order-status lookup succeeds, the answer
is the templated sentence showing the order id masked (all but the last 4
characters replaced by `*`), and it contains the unmasked id only if one
of the lookup-supplied fields (status, carrier, rendered ETA) contains it
— with those fields clean, the unmasked id never appears. -/
theorem answerQuestion_masks_order_id (lookup : String → Option Engine.OrderStatusInfo)
    (renderDate : String → String) (gt : List Engine.GroundTruthItem) (question : String)
    (oid : List Char) (st : Engine.OrderStatusInfo)
    (hfind : Engine.findOrderId (trimL question.data) = some oid)
    (hlook : lookup (String.mk oid) = some st)
    (hs : ¬ oid <:+: st.status.data)
    (hc : ∀ c, st.carrier = some c → ¬ oid <:+: c.data)
    (he : ∀ e, st.eta = some e → ¬ oid <:+: (renderDate e).data) :
    (Engine.answerQuestion lookup renderDate gt question).answer =
        some (Engine.renderAnswer renderDate oid st) ∧
      (Engine.maskId oid).data <:+: (Engine.renderAnswer renderDate oid st).data ∧
      ¬ oid <:+: (Engine.renderAnswer renderDate oid st).data := by
  obtain ⟨hlen, halnum⟩ := findOrderId_spec _ _ hfind
  have hq : (trimL question.data).isEmpty = false := by
    cases hqq : trimL question.data with
    | nil => rw [hqq] at hfind; simp [Engine.findOrderId] at hfind
    | cons a t => rfl
  refine ⟨?_, ?_, ?_⟩
  · simp only [Engine.answerQuestion, hq, Bool.false_eq_true, if_false, hfind, hlook]
  · refine ⟨"Order ".data, (" status: " ++ st.status ++ "." ++
      (match st.carrier with
       | some c => " Carrier: " ++ c ++ "."
       | none => "") ++
      (match st.eta with
       | some e => " ETA: " ++ renderDate e ++ "."
       | none => "")).data, ?_⟩
    simp [Engine.renderAnswer, String.data_append, List.append_assoc]
  · exact orderId_not_in_answer oid st renderDate hlen halnum hs hc he

/-- C10 witness lookup: a clean status record for any id. -/
def lookupShipped : String → Option Engine.OrderStatusInfo :=
  fun _ => some ⟨"SHIPPED", some "FedEx", none⟩

/-- C10 (witness): for the input `where is ORDER12345678 ?` with a clean
lookup result the answer shows only the masked id and does not contain
the unmasked id. -/
theorem answerQuestion_masks_order_id_witness :
    (Engine.answerQuestion lookupShipped id [] "where is ORDER12345678 ?").answer =
        some (Engine.renderAnswer id "ORDER12345678".data ⟨"SHIPPED", some "FedEx", none⟩) ∧
      (Engine.maskId "ORDER12345678".data).data <:+:
        (Engine.renderAnswer id "ORDER12345678".data ⟨"SHIPPED", some "FedEx", none⟩).data ∧
      ¬ "ORDER12345678".data <:+:
        (Engine.renderAnswer id "ORDER12345678".data ⟨"SHIPPED", some "FedEx", none⟩).data :=
  answerQuestion_masks_order_id lookupShipped id [] "where is ORDER12345678 ?"
    "ORDER12345678".data ⟨"SHIPPED", some "FedEx", none⟩
    (by decide) rfl (by decide) (by intro c hcc; cases hcc; decide)
    (by intro e hee; cases hee)

/-- C10 (counterexample): as universally stated the claim is false — if
the backing store echoes the order id inside the status text, the answer
does contain the full unmasked id (the engine never filters the
lookup-supplied fields). -/
theorem answerQuestion_unmasked_id_cx :
    Engine.answerQuestion (fun _ => some ⟨"ABCDEFGHIJ", none, none⟩) id [] "ABCDEFGHIJ" =
        ⟨some "Order ******GHIJ status: ABCDEFGHIJ.", none, false⟩ ∧
      "ABCDEFGHIJ".data <:+: "Order ******GHIJ status: ABCDEFGHIJ.".data :=
  ⟨rfl, by decide⟩

end Claims
